import Mathlib

/-!
Verification development for the barista status-bar supervisor.

The definitions below are shallow embeddings of the Rust source:
* `Bar` and its operations embed `src/bar/mod.rs`;
* `psParse` and friends embed `src/ps.rs`;
* `confFromKVs` embeds the serde-derived TOML deserializer implied by the
  attributes on `Conf` in `src/conf.rs`;
* `Sys`, `handleMsg` and `Step` embed the supervisor actor of
  `src/bar/server.rs` together with its timer-task and mailbox environment.

Rust machine integers are modelled as `Nat` (all values in scope are small
and no arithmetic wraps); Rust panics (`unreachable!`, slice/index
out-of-bounds) are modelled as `Except Panic` errors.
-/

namespace Barista

/-! ### Bar buffer (`src/bar/mod.rs`) -/

/-- Embeds `struct Bar`.  Slots are Lean `String`s; `shown` is the negated
dirty bit exactly as in the source. -/
structure Bar where
  left_pad : String
  separator : String
  right_pad : String
  clear_char : Char
  expire_char : Char
  shown : Bool
  slots : List String
  deriving Repr, DecidableEq

namespace Bar

/-- Embeds `Bar::new`: n empty slots, `shown = false` (dirty). -/
def new (n : Nat) (left_pad separator right_pad : String)
    (clear_char expire_char : Char) : Bar :=
  { left_pad := left_pad
    separator := separator
    right_pad := right_pad
    clear_char := clear_char
    expire_char := expire_char
    shown := false
    slots := List.replicate n "" }

/-- Embeds `Bar::set`: `self.slots[i] = data; self.shown = false`.
Rust panics when `i` is out of range; theorems about `set` carry an
in-range hypothesis (`List.set` is the identity out of range). -/
def set (b : Bar) (i : Nat) (data : String) : Bar :=
  { b with slots := b.slots.set i data, shown := false }

/-- Embeds `Bar::overwrite`: the filler run length is
`self.slots[i].len()`, i.e. the UTF-8 **byte** length of the stored slot
(`String::len` counts bytes, not characters). -/
def overwrite (b : Bar) (i : Nat) (c : Char) : Bar :=
  let new : String := String.mk (List.replicate (b.slots.getD i "").utf8ByteSize c)
  { b.set i new with shown := false }

/-- Embeds `Bar::clear`. -/
def clear (b : Bar) (i : Nat) : Bar := b.overwrite i b.clear_char

/-- Embeds `Bar::expire`. -/
def expire (b : Bar) (i : Nat) : Bar := b.overwrite i b.expire_char

/-- Embeds `Bar::show`: `left_pad ++ slots.join(separator) ++ right_pad`. -/
def show' (b : Bar) : String :=
  b.left_pad ++ String.intercalate b.separator b.slots ++ b.right_pad

/-- Embeds `Bar::show_unshown`: returns the composed string and sets
`shown` iff `shown` was false. -/
def show_unshown (b : Bar) : Option String × Bar :=
  if b.shown then (none, b) else (some b.show', { b with shown := true })

end Bar

/-- A bar mutation, for quantifying over operation sequences. -/
inductive BarOp
  | set (i : Nat) (s : String)
  | clear (i : Nat)
  | expire (i : Nat)
  deriving Repr, DecidableEq

/-- Index touched by a `BarOp`. -/
def BarOp.idx : BarOp → Nat
  | .set i _ => i
  | .clear i => i
  | .expire i => i

/-- Apply one mutation. -/
def Bar.applyOp (b : Bar) : BarOp → Bar
  | .set i s => b.set i s
  | .clear i => b.clear i
  | .expire i => b.expire i

/-- Apply a sequence of mutations, first element first. -/
def Bar.applyOps (b : Bar) (ops : List BarOp) : Bar :=
  ops.foldl Bar.applyOp b

theorem Bar.applyOp_shown (b : Bar) (op : BarOp) : (b.applyOp op).shown = false := by
  cases op <;> rfl

theorem Bar.applyOps_shown (b : Bar) (ops : List BarOp) (h : ops ≠ []) :
    (b.applyOps ops).shown = false := by
  induction ops generalizing b with
  | nil => exact absurd rfl h
  | cons op rest ih =>
    cases rest with
    | nil => exact Bar.applyOp_shown b op
    | cons op2 rest2 => exact ih (b.applyOp op) (by simp)

/-! Claim theorems for the bar -/

/-- Claim C5: the code computes the filler run length of `clear`/`expire`
from the **byte** length of the stored slot, so for the one-codepoint,
two-byte slot `"é"` the character count after `clear 0` is 2, not the 1 the
claim requires.  This theorem evaluates the embedded code at that failing
input. -/
theorem c5_filler_uses_byte_length :
    (((Bar.new 1 "" "" "" ' ' '_').set 0 "é").slots.getD 0 "").length = 1 ∧
    ((((Bar.new 1 "" "" "" ' ' '_').set 0 "é").clear 0).slots.getD 0 "").length = 2 := by
  decide

/-- Claim C6 (counterexample): the claimed scenario never sets slot 0, so
`clear 0` acts on the empty slot and produces an empty filler run; the
composed string is not `"[   |___|def]"`. -/
theorem c6_counterexample :
    ((((((Bar.new 3 "[" "|" "]" ' ' '_').set 1 "abc").set 2 "def").clear 0).expire 1).show'
      = "[   |___|def]") = False := by
  decide

/-- Claim C6 (amended): the scenario `set 1 "abc"; set 2 "def"; clear 0;
expire 1` on `Bar.new 3 "[" "|" "]" ' ' '_'` composes to `"[|___|def]"`
(slot 0 was never set, so its filler run is empty). -/
theorem c6_basic_render :
    (((((Bar.new 3 "[" "|" "]" ' ' '_').set 1 "abc").set 2 "def").clear 0).expire 1).show'
      = "[|___|def]" := by
  decide

/-- Claim C7: a freshly constructed bar is dirty (`show_unshown` returns
`some`), after any nonempty cluster of mutations `show_unshown` returns the
composed string exactly once, and an immediate second call returns `none`. -/
theorem c7_dirty_stickiness (n : Nat) (pl sp pr : String) (cc ec : Char)
    (b : Bar) (ops : List BarOp) (h : ops ≠ []) :
    ((Bar.new n pl sp pr cc ec).show_unshown).1.isSome = true ∧
    ((b.applyOps ops).show_unshown).1 = some (b.applyOps ops).show' ∧
    (((b.applyOps ops).show_unshown).2.show_unshown).1 = none := by
  refine ⟨rfl, ?_, ?_⟩
  · simp [Bar.show_unshown, Bar.applyOps_shown b ops h]
  · simp [Bar.show_unshown, Bar.applyOps_shown b ops h]

/-- Witness for `c7_dirty_stickiness` at a concrete bar and operation
sequence. -/
theorem c7_witness :
    ((Bar.new 2 "<" "," ">" ' ' '_').show_unshown).1.isSome = true ∧
    (((Bar.new 2 "<" "," ">" ' ' '_').applyOps [.set 0 "hi"]).show_unshown).1
      = some ((Bar.new 2 "<" "," ">" ' ' '_').applyOps [.set 0 "hi"]).show' ∧
    ((((Bar.new 2 "<" "," ">" ' ' '_').applyOps [.set 0 "hi"]).show_unshown).2.show_unshown).1
      = none :=
  c7_dirty_stickiness 2 "<" "," ">" ' ' '_' (Bar.new 2 "<" "," ">" ' ' '_')
    [.set 0 "hi"] (by decide)

/-! ### Process-list parsing (`src/ps.rs`) -/

/-- Split a character list at every occurrence of `sep`, keeping empty
pieces — the semantics of Rust's `str::split(sep)`. -/
def splitOnChar (sep : Char) : List Char → List (List Char)
  | [] => [[]]
  | c :: rest =>
    let r := splitOnChar sep rest
    if c = sep then [] :: r
    else
      match r with
      | [] => [[c]]
      | h :: t => (c :: h) :: t

/-- Split at every character satisfying `p`, keeping empty pieces. -/
def splitAtPred (p : Char → Bool) : List Char → List (List Char)
  | [] => [[]]
  | c :: rest =>
    let r := splitAtPred p rest
    if p c then [] :: r
    else
      match r with
      | [] => [[c]]
      | h :: t => (c :: h) :: t

/-- Embeds Rust's `str::lines`: split on `'\n'`, drop a final empty piece
produced by a trailing newline, strip a trailing `'\r'` from each line. -/
def rustLines (s : String) : List (List Char) :=
  let parts := splitOnChar '\n' s.data
  let parts := if parts.getLast? = some [] then parts.dropLast else parts
  parts.map fun l => if l.getLast? = some '\r' then l.dropLast else l

/-- Embeds Rust's `str::split_whitespace`: fields are the nonempty pieces
between whitespace characters. -/
def splitWS (cs : List Char) : List (List Char) :=
  (splitAtPred Char.isWhitespace cs).filter (fun t => t ≠ [])

/-- Embeds `str::parse::<u32>()`: an optional leading `'+'`, then one or
more ASCII digits, value below `2^32`. -/
def parseU32 (cs : List Char) : Option Nat :=
  let t := match cs with
    | '+' :: rest => rest
    | _ => cs
  if t ≠ [] ∧ t.all Char.isDigit then
    let n := t.foldl (fun acc c => acc * 10 + (c.toNat - 48)) 0
    if n < 4294967296 then some n else none
  else none

/-- Embeds `ps::State`. -/
inductive PsState
  | sleepUninterruptible
  | sleepInterruptible
  | idle
  | runQueue
  | stoppedByJobControl
  | stoppedByDebugger
  | paging
  | dead
  | zombie
  deriving Repr, DecidableEq

/-- Embeds `ps::State::parse` (as the `Option` obtained through the
source's `.ok()`; an unmatched code makes the caller bail). -/
def parsePsState : List Char → Option PsState
  | ['D'] => some .sleepUninterruptible
  | ['I'] => some .idle
  | ['R'] => some .runQueue
  | ['S'] => some .sleepInterruptible
  | ['T'] => some .stoppedByJobControl
  | ['t'] => some .stoppedByDebugger
  | ['W'] => some .paging
  | ['X'] => some .dead
  | ['Z'] => some .zombie
  | _ => none

/-- Embeds `ps::Proc`. -/
structure Proc where
  pid : Nat
  ppid : Nat
  pgrp : Nat
  state : PsState
  deriving Repr, DecidableEq

/-- Outcome of processing one `ps` output row.  `panic` records a Rust
slice-index panic (`fields[0..3]` / `fields[3..4]` on a short row); `bad`
records the source's `bail!` on an unparsable row. -/
inductive LineRes
  | panic
  | bad
  | ok (p : Proc)
  deriving Repr, DecidableEq

/-- Embeds the per-line body of `ps_parse`.  The source slices
`fields[0..3]` (panics when there are fewer than 3 fields), filter-maps the
numeric parses, slices `fields[3..4]` (panics when there are fewer than 4
fields), filter-maps the state parse, and pattern-matches the results. -/
def parsePsLine (line : List Char) : LineRes :=
  let fields := splitWS line
  if fields.length < 3 then .panic
  else
    let pids := (fields.take 3).filterMap parseU32
    if fields.length < 4 then .panic
    else
      let states := ((fields.drop 3).take 1).filterMap parsePsState
      match pids, states with
      | [pid, ppid, pgrp], [st] => .ok ⟨pid, ppid, pgrp, st⟩
      | _, _ => .bad

/-- Outcome of `ps_parse` over a whole input. -/
inductive PsResult
  | panic
  | err
  | ok (procs : List Proc)
  deriving Repr, DecidableEq

/-- Row loop of `ps_parse`: first panic or bail wins, otherwise collect
one `Proc` per row in order. -/
def psParseGo : List (List Char) → List Proc → PsResult
  | [], acc => .ok acc.reverse
  | l :: rest, acc =>
    match parsePsLine l with
    | .panic => .panic
    | .bad => .err
    | .ok p => psParseGo rest (p :: acc)

/-- Embeds `ps_parse`: skip the header line, process the remaining rows. -/
def psParse (out : String) : PsResult := psParseGo ((rustLines out).drop 1) []

/-- A row parses: its first three fields are `u32`s and its fourth is a
legal state code. -/
def rowGood (line : List Char) : Bool :=
  let fields := splitWS line
  (((fields.take 3).filterMap parseU32).length == 3)
    && (parsePsState (fields.getD 3 [])).isSome

/-- The `Proc` extracted from a good row. -/
def extractProc (line : List Char) : Proc :=
  let fields := splitWS line
  match (fields.take 3).filterMap parseU32, parsePsState (fields.getD 3 []) with
  | [a, b, c], some st => ⟨a, b, c, st⟩
  | _, _ => ⟨0, 0, 0, .zombie⟩

theorem drop_take_one_eq_getD (l : List (List Char)) (h : 4 ≤ l.length) :
    (l.drop 3).take 1 = [l.getD 3 []] := by
  match l with
  | a :: b :: c :: d :: rest => rfl
  | [] | [_] | [_, _] | [_, _, _] => simp at h

theorem parsePsLine_of_wide (line : List Char) (h : 4 ≤ (splitWS line).length) :
    parsePsLine line = if rowGood line then .ok (extractProc line) else .bad := by
  have h3 : ¬ (splitWS line).length < 3 := by omega
  have h4' : ¬ (splitWS line).length < 4 := by omega
  simp only [parsePsLine, rowGood, extractProc, h3, h4', if_false]
  rw [drop_take_one_eq_getD _ h]
  rcases hp : ((splitWS line).take 3).filterMap parseU32 with _ | ⟨a, _ | ⟨b, _ | ⟨c, _ | ⟨d, t⟩⟩⟩⟩ <;>
    rcases hs : parsePsState ((splitWS line).getD 3 []) with _ | st <;>
      simp only [List.getD, List.get?_eq_getElem?] at hs <;> simp [List.filterMap, hs]

theorem psParseGo_spec (ls : List (List Char)) (acc : List Proc)
    (h4 : ∀ r ∈ ls, 4 ≤ (splitWS r).length) :
    psParseGo ls acc ≠ .panic ∧
    ((∀ r ∈ ls, rowGood r = true) →
      psParseGo ls acc = .ok (acc.reverse ++ ls.map extractProc)) ∧
    ((∃ r ∈ ls, rowGood r = false) → psParseGo ls acc = .err) := by
  induction ls generalizing acc with
  | nil =>
    refine ⟨by simp [psParseGo], by simp [psParseGo], ?_⟩
    rintro ⟨r, hr, -⟩
    exact absurd hr (List.not_mem_nil r)
  | cons l rest ih =>
    have hl := parsePsLine_of_wide l (h4 l (by simp))
    have hrest : ∀ r ∈ rest, 4 ≤ (splitWS r).length :=
      fun r hr => h4 r (List.mem_cons_of_mem l hr)
    by_cases hg : rowGood l = true
    · have hstep : psParseGo (l :: rest) acc = psParseGo rest (extractProc l :: acc) := by
        simp [psParseGo, hl, hg]
      obtain ⟨ihp, ihok, iherr⟩ := ih (extractProc l :: acc) hrest
      refine ⟨hstep ▸ ihp, ?_, ?_⟩
      · intro hall
        rw [hstep, ihok (fun r hr => hall r (List.mem_cons_of_mem l hr))]
        simp
      · rintro ⟨r, hr, hbad⟩
        rcases List.mem_cons.mp hr with rfl | hr2
        · exact absurd hg (by simp [hbad])
        · exact hstep ▸ iherr ⟨r, hr2, hbad⟩
    · have hstep : psParseGo (l :: rest) acc = .err := by
        simp [psParseGo, hl, hg]
      refine ⟨by simp [hstep], ?_, fun _ => hstep⟩
      intro hall
      exact absurd (hall l (by simp)) hg

/-- Claim C8 (counterexample): on the input `"PID PPID PGRP STATE\n1 2\n"`
the single data row has only two fields, so the source's `fields[0..3]`
slice panics instead of returning an error for the whole call. -/
theorem c8_counterexample : psParse "PID PPID PGRP STATE\n1 2\n" = .panic := by
  decide

/-- Claim C8 (amended): for every input whose non-header rows all have at
least four whitespace-separated fields, `ps_parse` skips the header and
never panics; it returns one `Proc` per row with the parsed pid, ppid,
pgrp and state when every row is well formed, and fails the whole call
with an error as soon as some row's numeric columns or state code do not
parse.  Rows with fewer than four fields are outside this guarantee: they
panic (see the counterexample). -/
theorem c8_ps_parse (out : String)
    (h4 : ∀ r ∈ (rustLines out).drop 1, 4 ≤ (splitWS r).length) :
    psParse out ≠ .panic ∧
    ((∀ r ∈ (rustLines out).drop 1, rowGood r = true) →
      psParse out = .ok (((rustLines out).drop 1).map extractProc)) ∧
    ((∃ r ∈ (rustLines out).drop 1, rowGood r = false) → psParse out = .err) := by
  have h := psParseGo_spec ((rustLines out).drop 1) [] h4
  simpa [psParse] using h

/-- Witness for `c8_ps_parse` at a concrete well-formed input. -/
theorem c8_witness :
    psParse "PID PPID PGRP STATE\n1 0 1 S\n7 1 7 Z\n" ≠ .panic ∧
    psParse "PID PPID PGRP STATE\n1 0 1 S\n7 1 7 Z\n"
      = .ok [⟨1, 0, 1, .sleepInterruptible⟩, ⟨7, 1, 7, .zombie⟩] := by
  have h := c8_ps_parse "PID PPID PGRP STATE\n1 0 1 S\n7 1 7 Z\n" (by decide)
  exact ⟨h.1, by rw [h.2.1 (by decide)]; decide⟩

/-! ### Configuration (`src/conf.rs`)

`Conf` derives plain `serde::Deserialize` with **no**
`deny_unknown_fields` attribute, so the derived map visitor ignores
unknown keys (serde's default).  The definitions below embed that derived
deserializer over an already-parsed TOML document (a key/value table);
`f64` values are carried opaquely. -/

/-- A parsed TOML value, as handed to the derived deserializer.  Floats
are opaque payloads (no floating-point semantics is needed). -/
inductive TomlVal
  | str (s : String)
  | float (payload : Nat)
  | array (vs : List TomlVal)
  | table (kvs : List (String × TomlVal))
  deriving Repr

/-- Embeds `conf::Dst`. -/
inductive Dst
  | stdOut
  | stdErr
  | file (path : String)
  | x11RootWindowName
  deriving Repr, DecidableEq

/-- Embeds `conf::Feed`. -/
structure FeedConf where
  name : String
  cmd : String
  ttl : Option Nat
  shell : Option String
  deriving Repr, DecidableEq

/-- Embeds `conf::Conf`. -/
structure Conf where
  feeds : List FeedConf
  dst : Option Dst
  sep : String
  pad_left : String
  pad_right : String
  expiry_character : Char
  output_interval : Nat
  deriving Repr, DecidableEq

/-- Deserialize a string field. -/
def deserStr : TomlVal → Option String
  | .str s => some s
  | _ => none

/-- Deserialize an `f64` field (opaque payload). -/
def deserFloat : TomlVal → Option Nat
  | .float p => some p
  | _ => none

/-- Deserialize a `char` field: serde accepts exactly a one-character
string. -/
def deserChar : TomlVal → Option Char
  | .str s =>
    match s.data with
    | [c] => some c
    | _ => none
  | _ => none

/-- Field accumulator for the derived `Feed` visitor (fields of Rust type
`Option<_>` track presence one level deeper). -/
structure FeedAcc where
  name : Option String := none
  cmd : Option String := none
  ttl : Option (Option Nat) := none
  shell : Option (Option String) := none

/-- One key/value step of the derived `Feed` map visitor: known keys must
not repeat and must deserialize; unknown keys are ignored. -/
def feedStep (acc : FeedAcc) (kv : String × TomlVal) : Option FeedAcc :=
  if kv.1 = "name" then
    if acc.name.isSome then none
    else (deserStr kv.2).map fun x => { acc with name := some x }
  else if kv.1 = "cmd" then
    if acc.cmd.isSome then none
    else (deserStr kv.2).map fun x => { acc with cmd := some x }
  else if kv.1 = "ttl" then
    if acc.ttl.isSome then none
    else (deserFloat kv.2).map fun x => { acc with ttl := some (some x) }
  else if kv.1 = "shell" then
    if acc.shell.isSome then none
    else (deserStr kv.2).map fun x => { acc with shell := some (some x) }
  else some acc

/-- Finish the `Feed` visitor: `name` and `cmd` are required; the
`Option` fields default to `None`. -/
def feedFinish (acc : FeedAcc) : Option FeedConf := do
  let name ← acc.name
  let cmd ← acc.cmd
  some { name := name, cmd := cmd, ttl := acc.ttl.getD none, shell := acc.shell.getD none }

/-- Deserialize one `Feed` from a TOML table. -/
def deserFeed : TomlVal → Option FeedConf
  | .table kvs => kvs.foldlM feedStep {} >>= feedFinish
  | _ => none

/-- Deserialize the `feeds` array. -/
def deserFeeds : TomlVal → Option (List FeedConf)
  | .array vs => vs.mapM deserFeed
  | _ => none

/-- Deserialize `Dst` (externally tagged serde enum: unit variants from a
string, the `File` struct variant from a one-entry table). -/
def deserDst : TomlVal → Option Dst
  | .str "StdOut" => some .stdOut
  | .str "StdErr" => some .stdErr
  | .str "X11RootWindowName" => some .x11RootWindowName
  | .table [("File", .table kvs)] =>
    (kvs.lookup "path").bind deserStr |>.map .file
  | _ => none

/-- Field accumulator for the derived `Conf` visitor. -/
structure ConfAcc where
  feeds : Option (List FeedConf) := none
  dst : Option (Option Dst) := none
  sep : Option String := none
  pad_left : Option String := none
  pad_right : Option String := none
  expiry_character : Option Char := none
  output_interval : Option Nat := none

/-- The keys of the `Conf` schema. -/
def confKnownKeys : List String :=
  ["feeds", "dst", "sep", "pad_left", "pad_right", "expiry_character", "output_interval"]

/-- One key/value step of the derived `Conf` map visitor: known keys must
not repeat and must deserialize; unknown keys are **ignored** (no
`deny_unknown_fields` on `Conf`). -/
def confStep (acc : ConfAcc) (kv : String × TomlVal) : Option ConfAcc :=
  if kv.1 = "feeds" then
    if acc.feeds.isSome then none
    else (deserFeeds kv.2).map fun x => { acc with feeds := some x }
  else if kv.1 = "dst" then
    if acc.dst.isSome then none
    else (deserDst kv.2).map fun x => { acc with dst := some (some x) }
  else if kv.1 = "sep" then
    if acc.sep.isSome then none
    else (deserStr kv.2).map fun x => { acc with sep := some x }
  else if kv.1 = "pad_left" then
    if acc.pad_left.isSome then none
    else (deserStr kv.2).map fun x => { acc with pad_left := some x }
  else if kv.1 = "pad_right" then
    if acc.pad_right.isSome then none
    else (deserStr kv.2).map fun x => { acc with pad_right := some x }
  else if kv.1 = "expiry_character" then
    if acc.expiry_character.isSome then none
    else (deserChar kv.2).map fun x => { acc with expiry_character := some x }
  else if kv.1 = "output_interval" then
    if acc.output_interval.isSome then none
    else (deserFloat kv.2).map fun x => { acc with output_interval := some x }
  else some acc

/-- Finish the `Conf` visitor: every non-`Option` field is required. -/
def confFinish (acc : ConfAcc) : Option Conf := do
  let feeds ← acc.feeds
  let sep ← acc.sep
  let pad_left ← acc.pad_left
  let pad_right ← acc.pad_right
  let expiry_character ← acc.expiry_character
  let output_interval ← acc.output_interval
  some { feeds := feeds, dst := acc.dst.getD none, sep := sep, pad_left := pad_left,
         pad_right := pad_right, expiry_character := expiry_character,
         output_interval := output_interval }

/-- Embeds the deserialization of `conf.toml` performed by
`Conf::from_file` (after TOML parsing has produced the top-level table). -/
def confFromKVs (kvs : List (String × TomlVal)) : Option Conf :=
  kvs.foldlM confStep {} >>= confFinish

/-- A complete, well-typed document for the schema. -/
def confValidDoc : List (String × TomlVal) :=
  [("feeds", .array [.table [("name", .str "time"), ("cmd", .str "date")]]),
   ("dst", .str "StdOut"), ("sep", .str "   "), ("pad_left", .str " "),
   ("pad_right", .str " "), ("expiry_character", .str "_"),
   ("output_interval", .float 0)]

/-- Claim C9 (counterexample): a document containing the unknown field
`"bogus"` still deserializes successfully — unknown fields are not
rejected. -/
theorem c9_counterexample :
    (confFromKVs (confValidDoc ++ [("bogus", .str "x")])).isSome = true := by
  decide

theorem confStep_unknown (acc : ConfAcc) (k : String) (v : TomlVal)
    (h : k ∉ confKnownKeys) : confStep acc (k, v) = some acc := by
  simp only [confKnownKeys, List.mem_cons, List.not_mem_nil, or_false] at h
  push_neg at h
  obtain ⟨h1, h2, h3, h4, h5, h6, h7⟩ := h
  simp [confStep, h1, h2, h3, h4, h5, h6, h7]

/-- Claim C9 (amended): loading does **not** fail on fields outside the
schema; the derived deserializer skips any unknown key, so inserting an
unknown field anywhere in the document leaves the result unchanged. -/
theorem c9_unknown_fields_ignored (pre post : List (String × TomlVal))
    (k : String) (v : TomlVal) (h : k ∉ confKnownKeys) :
    confFromKVs (pre ++ (k, v) :: post) = confFromKVs (pre ++ post) := by
  unfold confFromKVs
  have e : pre ++ (k, v) :: post = (pre ++ [(k, v)]) ++ post := by simp
  rw [e, List.foldlM_append, List.foldlM_append, List.foldlM_append]
  cases hpre : pre.foldlM confStep ({} : ConfAcc) with
  | none => rfl
  | some acc =>
    simp [List.foldlM, confStep_unknown acc k v h]

/-- Witness for `c9_unknown_fields_ignored` at the concrete valid
document and the unknown key `"bogus"`. -/
theorem c9_witness :
    confFromKVs (confValidDoc ++ [("bogus", .str "x")]) = confFromKVs confValidDoc := by
  have h := c9_unknown_fields_ignored confValidDoc [] "bogus" (.str "x") (by decide)
  simpa using h

/-! ### Supervisor actor (`src/bar/server.rs`)

The supervisor is embedded as a state record `Sys` together with an
explicit environment: the mailbox queue (FIFO, as tokio's unbounded
channel delivers to the single consumer), and the set of live
self-scheduled timer tasks, each identified by a fresh id and carrying the
message it will send when its sleep elapses.  Rust panics
(`unreachable!`, index out of bounds) are the `Panic` errors; a panicking
handler has no successor state.  Ghost fields record externally
observable history: `published` (every string written to the sink),
`notified` (whether the deferred `Off` reply was signalled),
`cleaned` (per position, whether `Feed::clean_up` ran — i.e. the feed was
reaped and its router joined), and `exitPending` (per position, whether
the feed's waiter task has yet to send its `FeedExit`). -/

/-- Supervisor state tag, embedding `enum State` (the `Offing` payload
`notify` is tracked by the ghost field `notified`). -/
inductive SState
  | on
  | offing
  | off
  deriving Repr, DecidableEq

/-- Messages of `enum Msg`.  Reply channels are dropped; `Reconf` carries
the configuration that `Conf::load_or_init` would return; `On` carries
the environment's spawn outcome — `Feed::start` fails at position `k`
when `failAt = some k` (with `k` in range), chosen by the OS at handling
time; the `FeedExit` result payload is dropped (the source only logs
it). -/
inductive Msg
  | on (failAt : Option Nat)
  | off
  | status
  | reconf (newConf : Conf)
  | feedExit (pos : Nat)
  | expiration (pos : Nat)
  | input (pos : Nat) (data : String)
  | output
  deriving Repr, DecidableEq

/-- Rust panics of the supervisor. -/
inductive Panic
  | idxOOB
  | takeFeedNone
  | takeExpirationNone
  | takeOutputNone
  deriving Repr, DecidableEq

/-- The supervisor (`struct Server`) plus its timer/mailbox environment
and ghost history. -/
structure Sys where
  state : SState
  conf : Conf
  bar : Bar
  feeds : List (Option Unit)
  expiration_timers : List (Option Nat)
  output_timer : Option Nat
  x11 : Option Unit
  nextTimer : Nat
  timers : List (Nat × Msg)
  queue : List Msg
  exitPending : List Bool
  published : List String
  cleaned : List Bool
  notified : Bool
  deriving Repr, DecidableEq

/-- Embeds `Bar::from_conf`. -/
def Bar.fromConf (c : Conf) : Bar :=
  Bar.new c.feeds.length c.pad_left c.sep c.pad_right ' ' c.expiry_character

/-- `Bar::set` with the source's index panic. -/
def barSetP (b : Bar) (i : Nat) (data : String) : Except Panic Bar :=
  if i < b.slots.length then .ok (b.set i data) else .error .idxOOB

/-- `Bar::clear` with the source's index panic. -/
def barClearP (b : Bar) (i : Nat) : Except Panic Bar :=
  if i < b.slots.length then .ok (b.clear i) else .error .idxOOB

/-- `Bar::expire` with the source's index panic. -/
def barExpireP (b : Bar) (i : Nat) : Except Panic Bar :=
  if i < b.slots.length then .ok (b.expire i) else .error .idxOOB

namespace Sys

/-- Spawn a timer task (`Server::schedule`): the fresh id is the
pre-call `nextTimer`; the task will send `m` when its sleep elapses. -/
def scheduleT (s : Sys) (m : Msg) : Sys :=
  { s with nextTimer := s.nextTimer + 1, timers := s.timers ++ [(s.nextTimer, m)] }

/-- `JoinHandle::abort`: removes the task if it is still pending; a no-op
on a task that already fired. -/
def abortTimer (s : Sys) (t : Nat) : Sys :=
  { s with timers := s.timers.filter (fun p => p.1 ≠ t) }

/-- Embeds `Server::ensure_output_scheduled`: arm a single output timer
iff none is stored. -/
def ensure_output_scheduled (s : Sys) : Sys :=
  match s.output_timer with
  | some _ => s
  | none => { scheduleT s .output with output_timer := some s.nextTimer }

/-- Store the freshly scheduled expiry timer id at `pos` and abort the
replaced handle (`.replace(new).map(|old| old.abort())`); `s1` is the
post-schedule state. -/
def armStore (s1 : Sys) (pos id : Nat) (old : Option Nat) : Sys :=
  match old with
  | none => { s1 with expiration_timers := s1.expiration_timers.set pos (some id) }
  | some oldId =>
    Sys.abortTimer { s1 with expiration_timers := s1.expiration_timers.set pos (some id) } oldId

/-- Embeds `Server::reschedule_expiration`: if the feed has a TTL,
schedule a fresh expiry timer, store it, and abort the previous one. -/
def reschedule_expiration (s : Sys) (pos : Nat) : Except Panic Sys :=
  match s.conf.feeds.get? pos with
  | none => .error .idxOOB
  | some fc =>
    match fc.ttl with
    | none => .ok s
    | some _ =>
      match s.expiration_timers.get? pos with
      | none => .error .idxOOB
      | some old => .ok (armStore (scheduleT s (.expiration pos)) pos s.nextTimer old)

/-- Embeds `Server::output`: publish the composed string iff the bar is
dirty (`show_unshown`). -/
def output (s : Sys) : Sys :=
  if s.bar.shown then s
  else { s with bar := { s.bar with shown := true }, published := s.published ++ [s.bar.show'] }

/-- Embeds `Server::output_blank`: publish `""` unconditionally. -/
def output_blank (s : Sys) : Sys :=
  { s with published := s.published ++ [""] }

/-- The expiration-timer drain of the `Offing → Off` transition
(`drain(0..)` aborts each armed handle and empties the vector). -/
def drainExp (s : Sys) : Sys :=
  { s.expiration_timers.foldl (fun acc ot => match ot with
      | some t => Sys.abortTimer acc t
      | none => acc) s with expiration_timers := [] }

/-- `self.output_timer.take().map(|timer| timer.abort())`. -/
def takeOutputTimer (s : Sys) : Sys :=
  match s.output_timer with
  | some t => { Sys.abortTimer s t with output_timer := none }
  | none => s

/-- The `Offing`-with-zero-live-feeds completion: abort and drain the
expiry timers, take and abort the output timer, drop the X11 handle,
signal the deferred `Off` reply (`notify_waiters`), publish a blank, and
enter `Off`. -/
def off_transition (s : Sys) : Sys :=
  { Sys.output_blank
      { takeOutputTimer (drainExp s) with x11 := none, notified := true }
    with state := .off }

/-- After the slot take, cleanup, bar clear and publish of `off_feed`:
run the shutdown completion iff the state is `Offing` and no live feed
remains. -/
def off_feed_after (s2 : Sys) : Except Panic Sys :=
  match s2.state with
  | .offing =>
    if (s2.feeds.filter Option.isSome).length = 0 then .ok (off_transition s2)
    else .ok s2
  | _ => .ok s2

/-- Embeds `Server::off_feed`: take the feed slot (panicking when absent),
run `Feed::clean_up` (ghost `cleaned`), clear the bar slot, publish once,
then `off_feed_after`. -/
def off_feed (s : Sys) (pos : Nat) : Except Panic Sys :=
  match s.feeds.get? pos with
  | none => .error .idxOOB
  | some none => .error .takeFeedNone
  | some (some _) =>
    match barClearP s.bar pos with
    | .error e => .error e
    | .ok b =>
      off_feed_after (Sys.output
        { s with feeds := s.feeds.set pos none, cleaned := s.cleaned.set pos true, bar := b })

/-- One iteration of the `Server::on` feed loop: push a live feed slot,
push an empty timer slot, mark the waiter pending (ghost), reschedule the
expiry and ensure the output timer. -/
def onFeedStep (acc : Sys) (pos : Nat) : Except Panic Sys :=
  (Sys.reschedule_expiration
    { acc with feeds := acc.feeds ++ [some ()],
               expiration_timers := acc.expiration_timers ++ [none],
               exitPending := acc.exitPending ++ [true],
               cleaned := acc.cleaned ++ [false] } pos).map Sys.ensure_output_scheduled

/-- The feed loop of `Server::on`: run `onFeedStep` position by
position; when `Feed::start` fails (`failAt` hit) the `?` returns early
with the partial state kept (`done = false` — the caller then replies
with the error and the state tag is left unchanged). -/
def onLoop (acc : Sys) : List Nat → Option Nat → Except Panic (Sys × Bool)
  | [], _ => .ok (acc, true)
  | pos :: rest, failAt =>
    if failAt = some pos then .ok (acc, false)
    else
      match onFeedStep acc pos with
      | .error e => .error e
      | .ok acc1 => onLoop acc1 rest failAt

/-- Embeds the `On`-command transition `Server::on`: reset the bar and
the parallel vectors, run the feed loop, and enter `On` on success; on a
spawn failure the partially populated vectors remain and the state tag is
unchanged (the handler sends the error as the reply and keeps
running). -/
def on_cmd (s : Sys) (failAt : Option Nat) : Except Panic Sys :=
  match onLoop { s with bar := Bar.fromConf s.conf, feeds := [], expiration_timers := [],
                        exitPending := [], cleaned := [] }
      (List.range s.conf.feeds.length) failAt with
  | .error e => .error e
  | .ok (s1, true) => .ok { s1 with state := .on }
  | .ok (s1, false) => .ok s1

/-- Embeds `Server::off_begin`: signal every live feed's cancellation
token (the kills and exits arrive as environment `FeedExit` sends) and
enter `Offing`. -/
def off_begin (s : Sys) : Sys :=
  { s with state := .offing }

/-- Awaiting a taken `JoinHandle` (`.await?`): when the timer task is
still pending the supervisor blocks until the task sends its message and
finishes; when it already fired, the await returns at once. -/
def completePending (s : Sys) (id : Nat) : Sys :=
  match s.timers.lookup id with
  | some m => { s with timers := s.timers.filter (fun p => p.1 ≠ id),
                       queue := s.queue ++ [m] }
  | none => s

/-- Tail of the `Expiration` handler after the take: await the taken
handle, expire the bar slot, ensure the output timer. -/
def expirationTail (s1 : Sys) (pos id : Nat) : Except Panic Sys :=
  match barExpireP (completePending s1 id).bar pos with
  | .error e => .error e
  | .ok b => .ok (Sys.ensure_output_scheduled { completePending s1 id with bar := b })

/-- `Msg::Expiration` in `On`/`Offing`: take the stored handle (panicking
when absent), then `expirationTail`. -/
def handleExpiration (s : Sys) (pos : Nat) : Except Panic Sys :=
  match s.expiration_timers.get? pos with
  | none => .error .idxOOB
  | some none => .error .takeExpirationNone
  | some (some id) =>
    expirationTail { s with expiration_timers := s.expiration_timers.set pos none } pos id

/-- `Msg::Input` in `On`/`Offing`: reschedule the expiry, set the bar
slot, ensure the output timer, and touch the feed's last-output time
(indexing the feed vector panics out of range). -/
def handleInput (s : Sys) (pos : Nat) (data : String) : Except Panic Sys :=
  match s.reschedule_expiration pos with
  | .error e => .error e
  | .ok s1 =>
    match barSetP s1.bar pos data with
    | .error e => .error e
    | .ok b =>
      match (Sys.ensure_output_scheduled { s1 with bar := b }).feeds.get? pos with
      | none => .error .idxOOB
      | some _ => .ok (Sys.ensure_output_scheduled { s1 with bar := b })

/-- `Msg::Output` in `On`/`Offing`: take the stored handle (panicking when
absent; the handle is dropped, not awaited or aborted) and publish if
dirty. -/
def handleOutput (s : Sys) : Except Panic Sys :=
  match s.output_timer with
  | none => .error .takeOutputNone
  | some _ => .ok (Sys.output { s with output_timer := none })

/-- `Msg::Status`: read-only; panics when the feed vector is shorter than
the configured feed list (`procs[pos]`), which the match arm for two
empty vectors avoids. -/
def handleStatus (s : Sys) : Except Panic Sys :=
  if s.feeds = [] ∧ s.expiration_timers = [] then .ok s
  else if s.conf.feeds.length ≤ s.feeds.length then .ok s
  else .error .idxOOB

/-- Embeds `Server::handle` (the source matches `FeedExit` for every
state; `Expiration`/`Input`/`Output` are ignored in `Off`; `Reconf` only
applies in `Off`). -/
def handleMsg (s : Sys) : Msg → Except Panic Sys
  | .feedExit pos => s.off_feed pos
  | .expiration pos =>
    match s.state with
    | .off => .ok s
    | _ => s.handleExpiration pos
  | .input pos data =>
    match s.state with
    | .off => .ok s
    | _ => s.handleInput pos data
  | .output =>
    match s.state with
    | .off => .ok s
    | _ => s.handleOutput
  | .on failAt =>
    match s.state with
    | .off => s.on_cmd failAt
    | _ => .ok s
  | .off =>
    match s.state with
    | .on => .ok s.off_begin
    | _ => .ok s
  | .status => s.handleStatus
  | .reconf c =>
    match s.state with
    | .off => .ok { s with conf := c }
    | _ => .ok s

/-- Append a message to the mailbox. -/
def enqueue (s : Sys) (m : Msg) : Sys :=
  { s with queue := s.queue ++ [m] }

/-- Embeds `Server::new` followed by the `run` loop start: state `Off`,
empty vectors, and `ensure_output_scheduled` already called (the initial
output timer is armed). -/
def init (c : Conf) : Sys :=
  Sys.ensure_output_scheduled
    { state := .off, conf := c, bar := Bar.fromConf c, feeds := [],
      expiration_timers := [], output_timer := none, x11 := none, nextTimer := 0,
      timers := [], queue := [], exitPending := [], published := [], cleaned := [],
      notified := false }

end Sys

/-- One step of the closed system: a producer task sends into the
mailbox (client commands always; a router's `Input` and a waiter's single
`FeedExit` only while that feed is live), a pending timer fires, or the
supervisor delivers the queue head to `Server::handle`.  A panicking
handler has no successor. -/
inductive Step : Sys → Sys → Prop
  | send_on (s : Sys) (failAt : Option Nat) : Step s (s.enqueue (.on failAt))
  | send_off (s : Sys) : Step s (s.enqueue .off)
  | send_status (s : Sys) : Step s (s.enqueue .status)
  | send_reconf (s : Sys) (c : Conf) : Step s (s.enqueue (.reconf c))
  | send_input (s : Sys) (pos : Nat) (data : String)
      (h : s.exitPending.getD pos false = true) :
      Step s (s.enqueue (.input pos data))
  | send_feedExit (s : Sys) (pos : Nat)
      (h : s.exitPending.getD pos false = true) :
      Step s { s.enqueue (.feedExit pos) with exitPending := s.exitPending.set pos false }
  | fire (s : Sys) (t : Nat) (m : Msg) (h : s.timers.lookup t = some m) :
      Step s { s with timers := s.timers.filter (fun p => p.1 ≠ t),
                      queue := s.queue ++ [m] }
  | deliver (s : Sys) (m : Msg) (rest : List Msg) (s' : Sys)
      (hq : s.queue = m :: rest)
      (h : Sys.handleMsg { s with queue := rest } m = .ok s') :
      Step s s'

/-- Reachability from the freshly started server. -/
def Reach (c : Conf) (s : Sys) : Prop :=
  Relation.ReflTransGen Step (Sys.init c) s

/-- Executable environment actions, for exhibiting concrete traces. -/
inductive Act
  | sendOn (failAt : Option Nat)
  | sendOff
  | sendStatus
  | sendReconf (c : Conf)
  | sendInput (pos : Nat) (data : String)
  | sendFeedExit (pos : Nat)
  | fire (t : Nat)
  | deliver
  deriving Repr

/-- Run one action; `none` when the action is illegal or the handler
panics. -/
def runAct (s : Sys) : Act → Option Sys
  | .sendOn failAt => some (s.enqueue (.on failAt))
  | .sendOff => some (s.enqueue .off)
  | .sendStatus => some (s.enqueue .status)
  | .sendReconf c => some (s.enqueue (.reconf c))
  | .sendInput pos data =>
    if s.exitPending.getD pos false then some (s.enqueue (.input pos data)) else none
  | .sendFeedExit pos =>
    if s.exitPending.getD pos false then
      some { s.enqueue (.feedExit pos) with exitPending := s.exitPending.set pos false }
    else none
  | .fire t =>
    match s.timers.lookup t with
    | some m => some { s with timers := s.timers.filter (fun p => p.1 ≠ t),
                              queue := s.queue ++ [m] }
    | none => none
  | .deliver =>
    match s.queue with
    | [] => none
    | m :: rest =>
      match Sys.handleMsg { s with queue := rest } m with
      | .ok s' => some s'
      | .error _ => none

/-- Run a list of actions in order. -/
def runActs (s : Sys) : List Act → Option Sys
  | [] => some s
  | a :: rest => (runAct s a).bind fun s' => runActs s' rest

theorem step_of_runAct {s s' : Sys} {a : Act} (h : runAct s a = some s') : Step s s' := by
  cases a with
  | sendOn failAt => exact (Option.some_inj.mp h) ▸ Step.send_on s failAt
  | sendOff => exact (Option.some_inj.mp h) ▸ Step.send_off s
  | sendStatus => exact (Option.some_inj.mp h) ▸ Step.send_status s
  | sendReconf c => exact (Option.some_inj.mp h) ▸ Step.send_reconf s c
  | sendInput pos data =>
    simp only [runAct] at h
    split at h
    · exact (Option.some_inj.mp h) ▸ Step.send_input s pos data (by assumption)
    · exact absurd h (by simp)
  | sendFeedExit pos =>
    simp only [runAct] at h
    split at h
    · exact (Option.some_inj.mp h) ▸ Step.send_feedExit s pos (by assumption)
    · exact absurd h (by simp)
  | fire t =>
    simp only [runAct] at h
    split at h
    · exact (Option.some_inj.mp h) ▸ Step.fire s t _ (by assumption)
    · exact absurd h (by simp)
  | deliver =>
    simp only [runAct] at h
    split at h
    · exact absurd h (by simp)
    · rename_i m rest hq
      split at h
      · exact Step.deliver s m rest s' hq (by
          rename_i hok
          rw [hok, Option.some_inj.mp h])
      · exact absurd h (by simp)

instance exceptDecEq {ε α : Type} [DecidableEq ε] [DecidableEq α] :
    DecidableEq (Except ε α) := fun a b =>
  match a, b with
  | .ok x, .ok y =>
    if h : x = y then .isTrue (by rw [h])
    else .isFalse (by intro hc; cases hc; exact h rfl)
  | .error x, .error y =>
    if h : x = y then .isTrue (by rw [h])
    else .isFalse (by intro hc; cases hc; exact h rfl)
  | .ok _, .error _ => .isFalse (by intro hc; cases hc)
  | .error _, .ok _ => .isFalse (by intro hc; cases hc)

theorem reach_of_runActs (s s' : Sys) (acts : List Act)
    (h : runActs s acts = some s') : Relation.ReflTransGen Step s s' := by
  induction acts generalizing s with
  | nil => exact (Option.some_inj.mp h) ▸ Relation.ReflTransGen.refl
  | cons a rest ih =>
    simp only [runActs] at h
    cases ha : runAct s a with
    | none => rw [ha] at h; exact absurd h (by simp)
    | some s1 =>
      rw [ha] at h
      exact Relation.ReflTransGen.head (step_of_runAct ha) (ih s1 h)

/-! ### Field-preservation lemmas for the supervisor helpers -/

theorem Sys.output_fields (s : Sys) :
    (Sys.output s).state = s.state ∧ (Sys.output s).expiration_timers = s.expiration_timers ∧
    (Sys.output s).output_timer = s.output_timer ∧ (Sys.output s).timers = s.timers ∧
    (Sys.output s).queue = s.queue ∧ (Sys.output s).notified = s.notified ∧
    (Sys.output s).conf = s.conf ∧ (Sys.output s).feeds = s.feeds := by
  unfold Sys.output
  split <;> simp

theorem Sys.output_blank_fields (s : Sys) :
    (Sys.output_blank s).state = s.state ∧
    (Sys.output_blank s).expiration_timers = s.expiration_timers ∧
    (Sys.output_blank s).output_timer = s.output_timer ∧
    (Sys.output_blank s).timers = s.timers ∧ (Sys.output_blank s).queue = s.queue ∧
    (Sys.output_blank s).notified = s.notified ∧ (Sys.output_blank s).conf = s.conf ∧
    (Sys.output_blank s).feeds = s.feeds := by
  unfold Sys.output_blank
  simp

theorem Sys.abortTimer_fields (s : Sys) (t : Nat) :
    (s.abortTimer t).state = s.state ∧ (s.abortTimer t).expiration_timers = s.expiration_timers ∧
    (s.abortTimer t).output_timer = s.output_timer ∧ (s.abortTimer t).queue = s.queue ∧
    (s.abortTimer t).notified = s.notified ∧ (s.abortTimer t).conf = s.conf ∧
    (s.abortTimer t).feeds = s.feeds ∧ (∀ p ∈ (s.abortTimer t).timers, p ∈ s.timers) := by
  unfold Sys.abortTimer
  refine ⟨rfl, rfl, rfl, rfl, rfl, rfl, rfl, ?_⟩
  intro p hp
  exact List.mem_of_mem_filter hp

theorem Sys.ensure_fields (s : Sys) :
    (Sys.ensure_output_scheduled s).state = s.state ∧
    (Sys.ensure_output_scheduled s).expiration_timers = s.expiration_timers ∧
    (Sys.ensure_output_scheduled s).queue = s.queue ∧
    (Sys.ensure_output_scheduled s).notified = s.notified ∧
    (Sys.ensure_output_scheduled s).conf = s.conf ∧
    (Sys.ensure_output_scheduled s).feeds = s.feeds ∧
    (Sys.ensure_output_scheduled s).bar = s.bar ∧
    (Sys.ensure_output_scheduled s).published = s.published := by
  unfold Sys.ensure_output_scheduled Sys.scheduleT
  split <;> simp

theorem Sys.ensure_of_isSome (s : Sys) (h : s.output_timer.isSome = true) :
    Sys.ensure_output_scheduled s = s := by
  unfold Sys.ensure_output_scheduled
  cases ho : s.output_timer with
  | none => rw [ho] at h; simp at h
  | some t => simp

/-- The abort loop of the `Offing → Off` transition only shrinks the
pending-timer set. -/
theorem Sys.abortFold_fields (l : List (Option Nat)) (acc : Sys) :
    ((l.foldl (fun acc ot => match ot with
        | some t => Sys.abortTimer acc t
        | none => acc) acc).state = acc.state ∧
     (l.foldl (fun acc ot => match ot with
        | some t => Sys.abortTimer acc t
        | none => acc) acc).output_timer = acc.output_timer ∧
     (l.foldl (fun acc ot => match ot with
        | some t => Sys.abortTimer acc t
        | none => acc) acc).queue = acc.queue ∧
     (l.foldl (fun acc ot => match ot with
        | some t => Sys.abortTimer acc t
        | none => acc) acc).notified = acc.notified ∧
     (l.foldl (fun acc ot => match ot with
        | some t => Sys.abortTimer acc t
        | none => acc) acc).conf = acc.conf ∧
     (l.foldl (fun acc ot => match ot with
        | some t => Sys.abortTimer acc t
        | none => acc) acc).feeds = acc.feeds ∧
     (∀ p ∈ (l.foldl (fun acc ot => match ot with
        | some t => Sys.abortTimer acc t
        | none => acc) acc).timers, p ∈ acc.timers)) := by
  induction l generalizing acc with
  | nil => exact ⟨rfl, rfl, rfl, rfl, rfl, rfl, fun p hp => hp⟩
  | cons ot rest ih =>
    cases ot with
    | none => exact ih acc
    | some t =>
      obtain ⟨h1, h2, h3, h4, h5, h6, h7⟩ := ih (acc.abortTimer t)
      obtain ⟨a1, a2, a3, a4, a5, a6, a7, a8⟩ := Sys.abortTimer_fields acc t
      exact ⟨h1.trans a1, h2.trans a3, h3.trans a4, h4.trans a5, h5.trans a6,
        h6.trans a7, fun p hp => a8 p (h7 p hp)⟩

theorem Sys.drainExp_fields (s : Sys) :
    (Sys.drainExp s).state = s.state ∧ (Sys.drainExp s).expiration_timers = [] ∧
    (Sys.drainExp s).output_timer = s.output_timer ∧ (Sys.drainExp s).queue = s.queue ∧
    (Sys.drainExp s).notified = s.notified ∧ (Sys.drainExp s).conf = s.conf ∧
    (Sys.drainExp s).feeds = s.feeds ∧ (∀ p ∈ (Sys.drainExp s).timers, p ∈ s.timers) := by
  obtain ⟨h1, h2, h3, h4, h5, h6, h7⟩ := Sys.abortFold_fields s.expiration_timers s
  unfold Sys.drainExp
  exact ⟨h1, rfl, h2, h3, h4, h5, h6, h7⟩

theorem Sys.takeOutputTimer_fields (s : Sys) :
    (Sys.takeOutputTimer s).state = s.state ∧
    (Sys.takeOutputTimer s).expiration_timers = s.expiration_timers ∧
    (Sys.takeOutputTimer s).output_timer = none ∧
    (Sys.takeOutputTimer s).queue = s.queue ∧
    (Sys.takeOutputTimer s).notified = s.notified ∧
    (Sys.takeOutputTimer s).conf = s.conf ∧
    (Sys.takeOutputTimer s).feeds = s.feeds ∧
    (∀ p ∈ (Sys.takeOutputTimer s).timers, p ∈ s.timers) := by
  unfold Sys.takeOutputTimer
  cases ho : s.output_timer with
  | none => exact ⟨rfl, rfl, ho, rfl, rfl, rfl, rfl, fun p hp => hp⟩
  | some t =>
    obtain ⟨a1, a2, a3, a4, a5, a6, a7, a8⟩ := Sys.abortTimer_fields s t
    exact ⟨a1, a2, rfl, a4, a5, a6, a7, a8⟩

theorem Sys.off_transition_fields (s : Sys) :
    (Sys.off_transition s).state = .off ∧
    (Sys.off_transition s).expiration_timers = [] ∧
    (Sys.off_transition s).output_timer = none ∧
    (Sys.off_transition s).queue = s.queue ∧
    (Sys.off_transition s).notified = true ∧
    (Sys.off_transition s).conf = s.conf ∧
    (Sys.off_transition s).feeds = s.feeds ∧
    (∀ p ∈ (Sys.off_transition s).timers, p ∈ s.timers) := by
  obtain ⟨d1, d2, d3, d4, d5, d6, d7, d8⟩ := Sys.drainExp_fields s
  obtain ⟨t1, t2, t3, t4, t5, t6, t7, t8⟩ := Sys.takeOutputTimer_fields (Sys.drainExp s)
  unfold Sys.off_transition
  refine ⟨rfl, ?_, ?_, ?_, ?_, ?_, ?_, ?_⟩
  · simpa [Sys.output_blank] using t2.trans d2
  · simpa [Sys.output_blank] using t3
  · simpa [Sys.output_blank] using t4.trans d4
  · simp [Sys.output_blank]
  · simpa [Sys.output_blank] using t6.trans d6
  · simpa [Sys.output_blank] using t7.trans d7
  · intro p hp
    exact d8 p (t8 p (by simpa [Sys.output_blank] using hp))

/-- Case split for a successful `off_feed`: either the non-final branch
(only the feed slot, ghost `cleaned`, bar and publish log change), or
the `Offing → Off` shutdown-completion branch. -/
theorem Sys.off_feed_cases (s : Sys) (pos : Nat) (s' : Sys)
    (h : Sys.off_feed s pos = .ok s') :
    (s'.state = s.state ∧ s'.expiration_timers = s.expiration_timers ∧
     s'.output_timer = s.output_timer ∧ s'.timers = s.timers ∧ s'.queue = s.queue ∧
     s'.notified = s.notified ∧ s'.conf = s.conf ∧ s'.feeds = s.feeds.set pos none) ∨
    (s.state = .offing ∧ s'.state = .off ∧ s'.expiration_timers = [] ∧
     s'.output_timer = none ∧ (∀ p ∈ s'.timers, p ∈ s.timers) ∧ s'.queue = s.queue ∧
     s'.conf = s.conf ∧ s'.notified = true) := by
  unfold Sys.off_feed at h
  split at h
  · exact absurd h (by simp)
  · exact absurd h (by simp)
  · split at h
    · exact absurd h (by simp)
    · rename_i u hfeeds b hbar
      obtain ⟨o1, o2, o3, o4, o5, o6, o7, o8⟩ := Sys.output_fields
        { s with feeds := s.feeds.set pos none, cleaned := s.cleaned.set pos true, bar := b }
      unfold Sys.off_feed_after at h
      split at h
      · rename_i hstate
        split at h
        · -- shutdown completion
          cases h
          obtain ⟨f1, f2, f3, f4, f5, f6, f7, f8⟩ := Sys.off_transition_fields
            (Sys.output { s with feeds := s.feeds.set pos none,
                                 cleaned := s.cleaned.set pos true, bar := b })
          refine Or.inr ⟨?_, f1, f2, f3, ?_, f4.trans o5, f6.trans o7, f5⟩
          · rw [← o1]; exact hstate
          · intro p hp
            exact o4 ▸ f8 p hp
        · cases h
          exact Or.inl ⟨o1, o2, o3, o4, o5, o6, o7, o8⟩
      · cases h
        exact Or.inl ⟨o1, o2, o3, o4, o5, o6, o7, o8⟩

theorem mem_of_lookup_timers {l : List (Nat × Msg)} {t : Nat} {m : Msg}
    (h : l.lookup t = some m) : (t, m) ∈ l := by
  obtain ⟨l1, l2, rfl, -⟩ := List.lookup_eq_some_iff.mp h
  simp

theorem Sys.completePending_fields (s : Sys) (id : Nat) :
    (Sys.completePending s id).state = s.state ∧
    (Sys.completePending s id).expiration_timers = s.expiration_timers ∧
    (Sys.completePending s id).output_timer = s.output_timer ∧
    (Sys.completePending s id).notified = s.notified ∧
    (Sys.completePending s id).conf = s.conf ∧
    (Sys.completePending s id).feeds = s.feeds ∧
    (Sys.completePending s id).bar = s.bar ∧
    (Sys.completePending s id).published = s.published ∧
    (∀ p ∈ (Sys.completePending s id).timers, p ∈ s.timers) ∧
    (∀ m' ∈ (Sys.completePending s id).queue, m' ∈ s.queue ∨ ∃ p ∈ s.timers, m' = p.2) := by
  unfold Sys.completePending
  cases hl : s.timers.lookup id with
  | none => exact ⟨rfl, rfl, rfl, rfl, rfl, rfl, rfl, rfl, fun p hp => hp, fun m' hm => .inl hm⟩
  | some m =>
    refine ⟨rfl, rfl, rfl, rfl, rfl, rfl, rfl, rfl, ?_, ?_⟩
    · intro p hp
      exact List.mem_of_mem_filter hp
    · intro m' hm
      rcases List.mem_append.mp hm with hmem | hmem
      · exact .inl hmem
      · exact .inr ⟨(id, m), mem_of_lookup_timers hl, by simpa using hmem⟩

theorem Sys.expirationTail_facts (s1 : Sys) (pos id : Nat) (s' : Sys)
    (h : Sys.expirationTail s1 pos id = .ok s') :
    s'.state = s1.state ∧ s'.notified = s1.notified ∧ s'.feeds = s1.feeds ∧
    s'.conf = s1.conf ∧ s'.expiration_timers = s1.expiration_timers ∧
    (s1.output_timer.isSome = true →
      s'.output_timer = s1.output_timer ∧
      (∀ p ∈ s'.timers, p ∈ s1.timers) ∧
      (∀ m' ∈ s'.queue, m' ∈ s1.queue ∨ ∃ p ∈ s1.timers, m' = p.2)) := by
  unfold Sys.expirationTail at h
  split at h
  · exact absurd h (by simp)
  · rename_i b hbar
    cases h
    obtain ⟨c1, c2, c3, c4, c5, c6, c7, c8, c9, c10⟩ := Sys.completePending_fields s1 id
    obtain ⟨e1, e2, e3, e4, e5, e6, e7, e8⟩ :=
      Sys.ensure_fields { Sys.completePending s1 id with bar := b }
    refine ⟨e1.trans c1, e4.trans c4, e6.trans c6, e5.trans c5, e2.trans c2, ?_⟩
    intro hsome
    have hX : ({ Sys.completePending s1 id with bar := b } : Sys).output_timer.isSome = true := by
      simpa [c3] using hsome
    rw [Sys.ensure_of_isSome _ hX]
    exact ⟨c3, c9, fun m' hm => c10 m' hm⟩

theorem Sys.handleExpiration_facts (s : Sys) (pos : Nat) (s' : Sys)
    (h : Sys.handleExpiration s pos = .ok s') :
    s'.state = s.state ∧ s'.notified = s.notified ∧ s'.feeds = s.feeds ∧
    s'.conf = s.conf ∧
    (s.output_timer.isSome = true →
      s'.output_timer = s.output_timer ∧
      (∀ p ∈ s'.timers, p ∈ s.timers) ∧
      (∀ m' ∈ s'.queue, m' ∈ s.queue ∨ ∃ p ∈ s.timers, m' = p.2)) := by
  unfold Sys.handleExpiration at h
  split at h
  · exact absurd h (by simp)
  · exact absurd h (by simp)
  · rename_i id hid
    obtain ⟨t1, t2, t3, t4, t5, t6⟩ := Sys.expirationTail_facts _ pos id s' h
    exact ⟨t1, t2, t3, t4, t6⟩

theorem Sys.armStore_fields (s1 : Sys) (pos id : Nat) (old : Option Nat) :
    (Sys.armStore s1 pos id old).state = s1.state ∧
    (Sys.armStore s1 pos id old).notified = s1.notified ∧
    (Sys.armStore s1 pos id old).feeds = s1.feeds ∧
    (Sys.armStore s1 pos id old).conf = s1.conf ∧
    (Sys.armStore s1 pos id old).queue = s1.queue ∧
    (Sys.armStore s1 pos id old).output_timer = s1.output_timer ∧
    (Sys.armStore s1 pos id old).bar = s1.bar ∧
    (∀ p ∈ (Sys.armStore s1 pos id old).timers, p ∈ s1.timers) := by
  unfold Sys.armStore
  cases old with
  | none => exact ⟨rfl, rfl, rfl, rfl, rfl, rfl, rfl, fun p hp => hp⟩
  | some oldId =>
    refine ⟨rfl, rfl, rfl, rfl, rfl, rfl, rfl, ?_⟩
    intro p hp
    exact List.mem_of_mem_filter hp

theorem Sys.reschedule_facts (s : Sys) (pos : Nat) (s' : Sys)
    (h : Sys.reschedule_expiration s pos = .ok s') :
    s'.state = s.state ∧ s'.notified = s.notified ∧ s'.feeds = s.feeds ∧
    s'.conf = s.conf ∧ s'.queue = s.queue ∧ s'.output_timer = s.output_timer ∧
    (∀ p ∈ s'.timers, p ∈ s.timers ∨ p.2 = Msg.expiration pos) ∧
    s'.expiration_timers.length = s.expiration_timers.length := by
  unfold Sys.reschedule_expiration at h
  split at h
  · exact absurd h (by simp)
  · split at h
    · cases h
      exact ⟨rfl, rfl, rfl, rfl, rfl, rfl, fun p hp => .inl hp, rfl⟩
    · split at h
      · exact absurd h (by simp)
      · rename_i old hold
        cases h
        obtain ⟨a1, a2, a3, a4, a5, a6, a7, a8⟩ :=
          Sys.armStore_fields (Sys.scheduleT s (.expiration pos)) pos s.nextTimer old
        have hlen : (Sys.armStore (Sys.scheduleT s (.expiration pos)) pos s.nextTimer
            old).expiration_timers.length = s.expiration_timers.length := by
          unfold Sys.armStore Sys.abortTimer Sys.scheduleT
          cases old <;> simp
        refine ⟨a1, a2, a3, a4, a5, a6, ?_, hlen⟩
        intro p hp
        have hp2 := a8 p hp
        simp only [Sys.scheduleT] at hp2
        rcases List.mem_append.mp hp2 with hmem | hmem
        · exact .inl hmem
        · right
          simpa using congrArg Prod.snd (List.mem_singleton.mp hmem)

theorem Sys.handleInput_facts (s : Sys) (pos : Nat) (data : String) (s' : Sys)
    (h : Sys.handleInput s pos data = .ok s') :
    s'.state = s.state ∧ s'.notified = s.notified ∧ s'.feeds = s.feeds ∧
    s'.conf = s.conf ∧ s'.queue = s.queue ∧
    (s.output_timer.isSome = true →
      s'.output_timer = s.output_timer ∧
      (∀ p ∈ s'.timers, p ∈ s.timers ∨ p.2 = Msg.expiration pos)) := by
  unfold Sys.handleInput at h
  split at h
  · exact absurd h (by simp)
  · rename_i s1 hres
    split at h
    · exact absurd h (by simp)
    · rename_i b hbar
      split at h
      · exact absurd h (by simp)
      · rename_i u hfeeds
        cases h
        obtain ⟨r1, r2, r3, r4, r5, r6, r7, r8⟩ := Sys.reschedule_facts s pos s1 hres
        obtain ⟨e1, e2, e3, e4, e5, e6, e7, e8⟩ := Sys.ensure_fields { s1 with bar := b }
        refine ⟨e1.trans r1, e4.trans r2, e6.trans r3, e5.trans r4, e3.trans r5, ?_⟩
        intro hsome
        have hX : ({ s1 with bar := b } : Sys).output_timer.isSome = true := by
          simpa [r6] using hsome
        rw [Sys.ensure_of_isSome _ hX]
        exact ⟨r6, fun p hp => r7 p hp⟩

theorem Sys.handleOutput_facts (s : Sys) (s' : Sys)
    (h : Sys.handleOutput s = .ok s') :
    s'.state = s.state ∧ s'.notified = s.notified ∧ s'.feeds = s.feeds ∧
    s'.conf = s.conf ∧ s'.queue = s.queue ∧ s'.timers = s.timers ∧
    s'.expiration_timers = s.expiration_timers ∧ s'.output_timer = none := by
  unfold Sys.handleOutput at h
  split at h
  · exact absurd h (by simp)
  · cases h
    obtain ⟨o1, o2, o3, o4, o5, o6, o7, o8⟩ := Sys.output_fields { s with output_timer := none }
    exact ⟨o1, o6, o8, o7, o5, o4, o2, o3⟩

theorem Sys.handleStatus_eq (s : Sys) (s' : Sys)
    (h : Sys.handleStatus s = .ok s') : s' = s := by
  unfold Sys.handleStatus at h
  split at h
  · cases h; rfl
  · split at h
    · cases h; rfl
    · exact absurd h (by simp)

theorem Sys.onFeedStep_facts (acc : Sys) (a : Nat) (acc' : Sys)
    (h : Sys.onFeedStep acc a = .ok acc') :
    acc'.state = acc.state ∧ acc'.notified = acc.notified ∧ acc'.queue = acc.queue ∧
    acc'.conf = acc.conf ∧
    (acc.output_timer.isSome = true →
      acc'.output_timer = acc.output_timer ∧
      (∀ p ∈ acc'.timers, p ∈ acc.timers ∨ p.2 = Msg.expiration a)) := by
  unfold Sys.onFeedStep at h
  cases hres : Sys.reschedule_expiration
      { acc with feeds := acc.feeds ++ [some ()],
                 expiration_timers := acc.expiration_timers ++ [none],
                 exitPending := acc.exitPending ++ [true],
                 cleaned := acc.cleaned ++ [false] } a with
  | error e => rw [hres] at h; exact absurd h (fun hh => Except.noConfusion hh)
  | ok acc1 =>
    rw [hres] at h
    cases h
    obtain ⟨r1, r2, r3, r4, r5, r6, r7, r8⟩ := Sys.reschedule_facts _ a acc1 hres
    obtain ⟨e1, e2, e3, e4, e5, e6, e7, e8⟩ := Sys.ensure_fields acc1
    refine ⟨e1.trans r1, e4.trans r2, e3.trans r5, e5.trans r4, ?_⟩
    intro hs
    have hsome1 : acc1.output_timer.isSome = true := by rw [r6]; exact hs
    rw [Sys.ensure_of_isSome acc1 hsome1]
    exact ⟨r6, r7⟩

theorem Sys.onLoop_facts :
    ∀ (l : List Nat) (failAt : Option Nat) (acc s1 : Sys) (done : Bool),
      Sys.onLoop acc l failAt = .ok (s1, done) →
      s1.state = acc.state ∧ s1.notified = acc.notified ∧ s1.queue = acc.queue ∧
      s1.conf = acc.conf ∧
      (acc.output_timer.isSome = true →
        s1.output_timer = acc.output_timer ∧
        (∀ p ∈ s1.timers, p ∈ acc.timers ∨ ∃ k, p.2 = Msg.expiration k))
  | [], failAt, acc, s1, done, h => by
    cases h
    exact ⟨rfl, rfl, rfl, rfl, fun _ => ⟨rfl, fun p hp => .inl hp⟩⟩
  | pos :: rest, failAt, acc, s1, done, h => by
    unfold Sys.onLoop at h
    split at h
    · cases h
      exact ⟨rfl, rfl, rfl, rfl, fun _ => ⟨rfl, fun p hp => .inl hp⟩⟩
    · cases hstep : Sys.onFeedStep acc pos with
      | error e => rw [hstep] at h; exact absurd h (fun hh => Except.noConfusion hh)
      | ok acc1 =>
        rw [hstep] at h
        obtain ⟨f1, f2, f3, f4, f5⟩ := Sys.onFeedStep_facts acc pos acc1 hstep
        obtain ⟨g1, g2, g3, g4, g5⟩ := Sys.onLoop_facts rest failAt acc1 s1 done h
        refine ⟨g1.trans f1, g2.trans f2, g3.trans f3, g4.trans f4, ?_⟩
        intro hs
        obtain ⟨q1, q2⟩ := f5 hs
        have hsome1 : acc1.output_timer.isSome = true := by rw [q1]; exact hs
        obtain ⟨u1, u2⟩ := g5 hsome1
        refine ⟨u1.trans q1, ?_⟩
        intro p hp
        rcases u2 p hp with hmem | hexp
        · rcases q2 p hmem with hmem2 | hexp2
          · exact .inl hmem2
          · exact .inr ⟨pos, hexp2⟩
        · exact .inr hexp

theorem Sys.on_cmd_facts (s : Sys) (failAt : Option Nat) (s' : Sys)
    (h : Sys.on_cmd s failAt = .ok s') :
    (s'.state = .on ∨ s'.state = s.state) ∧ s'.notified = s.notified ∧
    s'.queue = s.queue ∧ s'.conf = s.conf ∧
    (s.output_timer.isSome = true →
      s'.output_timer = s.output_timer ∧
      (∀ p ∈ s'.timers, p ∈ s.timers ∨ ∃ k, p.2 = Msg.expiration k)) := by
  unfold Sys.on_cmd at h
  cases hl : Sys.onLoop
      { s with bar := Bar.fromConf s.conf, feeds := [], expiration_timers := [],
               exitPending := [], cleaned := [] }
      (List.range s.conf.feeds.length) failAt with
  | error e => rw [hl] at h; exact absurd h (fun hh => Except.noConfusion hh)
  | ok pr =>
    obtain ⟨s1, done⟩ := pr
    rw [hl] at h
    obtain ⟨g1, g2, g3, g4, g5⟩ := Sys.onLoop_facts _ failAt _ s1 done hl
    cases done with
    | true =>
      cases h
      exact ⟨.inl rfl, g2, g3, g4, g5⟩
    | false =>
      cases h
      exact ⟨.inr g1, g2, g3, g4, g5⟩

/-! ### Invariant preservation -/

/-- Preservation of the stuck-`Offing` configuration: once the state is
`Offing` with every feed slot already taken and the reply unfired, every
successful handler leaves it that way (in particular `FeedExit` panics
and cannot complete the shutdown). -/
theorem handle_stuck_offing (s : Sys) (m : Msg) (s' : Sys)
    (h1 : s.state = .offing) (h2 : s.notified = false) (h3 : s.feeds = [none])
    (h : Sys.handleMsg s m = .ok s') :
    s'.state = .offing ∧ s'.notified = false ∧ s'.feeds = [none] := by
  cases m with
  | feedExit pos =>
    unfold Sys.handleMsg Sys.off_feed at h
    rw [h3] at h
    cases pos with
    | zero => exact Except.noConfusion h
    | succ n => exact Except.noConfusion h
  | expiration pos =>
    unfold Sys.handleMsg at h
    rw [h1] at h
    obtain ⟨t1, t2, t3, t4, t5⟩ := Sys.handleExpiration_facts s pos s' h
    exact ⟨t1.trans h1, t2.trans h2, t3.trans h3⟩
  | input pos data =>
    unfold Sys.handleMsg at h
    rw [h1] at h
    obtain ⟨t1, t2, t3, t4, t5, t6⟩ := Sys.handleInput_facts s pos data s' h
    exact ⟨t1.trans h1, t2.trans h2, t3.trans h3⟩
  | output =>
    unfold Sys.handleMsg at h
    rw [h1] at h
    obtain ⟨t1, t2, t3, t4, t5, t6, t7, t8⟩ := Sys.handleOutput_facts s s' h
    exact ⟨t1.trans h1, t2.trans h2, t3.trans h3⟩
  | «on» =>
    unfold Sys.handleMsg at h
    rw [h1] at h
    cases h
    exact ⟨h1, h2, h3⟩
  | off =>
    unfold Sys.handleMsg at h
    rw [h1] at h
    cases h
    exact ⟨h1, h2, h3⟩
  | status =>
    unfold Sys.handleMsg at h
    cases Sys.handleStatus_eq s s' h
    exact ⟨h1, h2, h3⟩
  | reconf c =>
    unfold Sys.handleMsg at h
    rw [h1] at h
    cases h
    exact ⟨h1, h2, h3⟩

theorem step_stuck_offing (s s' : Sys)
    (h1 : s.state = .offing) (h2 : s.notified = false) (h3 : s.feeds = [none])
    (h : Step s s') :
    s'.state = .offing ∧ s'.notified = false ∧ s'.feeds = [none] := by
  cases h with
  | send_on => exact ⟨h1, h2, h3⟩
  | send_off => exact ⟨h1, h2, h3⟩
  | send_status => exact ⟨h1, h2, h3⟩
  | send_reconf c => exact ⟨h1, h2, h3⟩
  | send_input pos data hp => exact ⟨h1, h2, h3⟩
  | send_feedExit pos hp => exact ⟨h1, h2, h3⟩
  | fire t m hm => exact ⟨h1, h2, h3⟩
  | deliver m rest s'2 hq hh =>
    exact handle_stuck_offing { s with queue := rest } m s' h1 h2 h3 hh

/-- The wedged-output-timer configuration: a handle is stored, but no
output-timer task is pending and no `Output` message is queued. -/
def NoOut (s : Sys) : Prop :=
  s.output_timer.isSome = true ∧ (∀ p ∈ s.timers, p.2 ≠ Msg.output) ∧
  Msg.output ∉ s.queue

theorem handle_noout (s : Sys) (m : Msg) (s' : Sys) (hP : NoOut s)
    (hm : m ≠ Msg.output) (h : Sys.handleMsg s m = .ok s') :
    NoOut s' ∨ (s.state = .offing ∧ s'.state = .off) := by
  obtain ⟨hsome, htimers, hqueue⟩ := hP
  cases m with
  | feedExit pos =>
    rcases Sys.off_feed_cases s pos s' h with
      ⟨-, -, c3, c4, c5, -⟩ | ⟨c1, c2, -⟩
    · left
      refine ⟨by rw [c3]; exact hsome, ?_, by rw [c5]; exact hqueue⟩
      intro p hp
      rw [c4] at hp
      exact htimers p hp
    · right
      exact ⟨c1, c2⟩
  | expiration pos =>
    unfold Sys.handleMsg at h
    cases hst : s.state with
    | off =>
      rw [hst] at h; cases h
      exact .inl ⟨hsome, htimers, hqueue⟩
    | «on» =>
      rw [hst] at h
      obtain ⟨-, -, -, -, t5⟩ := Sys.handleExpiration_facts s pos s' h
      obtain ⟨f1, f2, f3⟩ := t5 hsome
      left
      refine ⟨by rw [f1]; exact hsome, fun p hp => htimers p (f2 p hp), ?_⟩
      intro hmem
      rcases f3 _ hmem with hq | ⟨p, hp, hpe⟩
      · exact hqueue hq
      · exact htimers p hp hpe.symm
    | offing =>
      rw [hst] at h
      obtain ⟨-, -, -, -, t5⟩ := Sys.handleExpiration_facts s pos s' h
      obtain ⟨f1, f2, f3⟩ := t5 hsome
      left
      refine ⟨by rw [f1]; exact hsome, fun p hp => htimers p (f2 p hp), ?_⟩
      intro hmem
      rcases f3 _ hmem with hq | ⟨p, hp, hpe⟩
      · exact hqueue hq
      · exact htimers p hp hpe.symm
  | input pos data =>
    unfold Sys.handleMsg at h
    cases hst : s.state with
    | off =>
      rw [hst] at h; cases h
      exact .inl ⟨hsome, htimers, hqueue⟩
    | «on» =>
      rw [hst] at h
      obtain ⟨-, -, -, -, t5, t6⟩ := Sys.handleInput_facts s pos data s' h
      obtain ⟨f1, f2⟩ := t6 hsome
      left
      refine ⟨by rw [f1]; exact hsome, ?_, by rw [t5]; exact hqueue⟩
      intro p hp
      rcases f2 p hp with hmem | hexp
      · exact htimers p hmem
      · rw [hexp]; exact fun hc => Msg.noConfusion hc
    | offing =>
      rw [hst] at h
      obtain ⟨-, -, -, -, t5, t6⟩ := Sys.handleInput_facts s pos data s' h
      obtain ⟨f1, f2⟩ := t6 hsome
      left
      refine ⟨by rw [f1]; exact hsome, ?_, by rw [t5]; exact hqueue⟩
      intro p hp
      rcases f2 p hp with hmem | hexp
      · exact htimers p hmem
      · rw [hexp]; exact fun hc => Msg.noConfusion hc
  | output => exact absurd rfl hm
  | «on» failAt =>
    unfold Sys.handleMsg at h
    cases hst : s.state with
    | off =>
      rw [hst] at h
      obtain ⟨-, -, t3, -, t5⟩ := Sys.on_cmd_facts s failAt s' h
      obtain ⟨f1, f2⟩ := t5 hsome
      left
      refine ⟨by rw [f1]; exact hsome, ?_, by rw [t3]; exact hqueue⟩
      intro p hp
      rcases f2 p hp with hmem | ⟨k, hexp⟩
      · exact htimers p hmem
      · rw [hexp]; exact fun hc => Msg.noConfusion hc
    | «on» => rw [hst] at h; cases h; exact .inl ⟨hsome, htimers, hqueue⟩
    | offing => rw [hst] at h; cases h; exact .inl ⟨hsome, htimers, hqueue⟩
  | off =>
    unfold Sys.handleMsg at h
    cases hst : s.state with
    | «on» =>
      rw [hst] at h
      cases h
      exact .inl ⟨hsome, htimers, hqueue⟩
    | off => rw [hst] at h; cases h; exact .inl ⟨hsome, htimers, hqueue⟩
    | offing => rw [hst] at h; cases h; exact .inl ⟨hsome, htimers, hqueue⟩
  | status =>
    cases Sys.handleStatus_eq s s' h
    exact .inl ⟨hsome, htimers, hqueue⟩
  | reconf c =>
    unfold Sys.handleMsg at h
    cases hst : s.state with
    | off => rw [hst] at h; cases h; exact .inl ⟨hsome, htimers, hqueue⟩
    | «on» => rw [hst] at h; cases h; exact .inl ⟨hsome, htimers, hqueue⟩
    | offing => rw [hst] at h; cases h; exact .inl ⟨hsome, htimers, hqueue⟩

theorem step_noout (s s' : Sys) (hP : NoOut s) (h : Step s s') :
    NoOut s' ∨ (s.state = .offing ∧ s'.state = .off) := by
  obtain ⟨hsome, htimers, hqueue⟩ := hP
  cases h with
  | send_on =>
    left
    refine ⟨hsome, htimers, ?_⟩
    intro hmem
    rcases List.mem_append.mp hmem with hq | hq
    · exact hqueue hq
    · exact Msg.noConfusion (List.mem_singleton.mp hq)
  | send_off =>
    left
    refine ⟨hsome, htimers, ?_⟩
    intro hmem
    rcases List.mem_append.mp hmem with hq | hq
    · exact hqueue hq
    · exact Msg.noConfusion (List.mem_singleton.mp hq)
  | send_status =>
    left
    refine ⟨hsome, htimers, ?_⟩
    intro hmem
    rcases List.mem_append.mp hmem with hq | hq
    · exact hqueue hq
    · exact Msg.noConfusion (List.mem_singleton.mp hq)
  | send_reconf c =>
    left
    refine ⟨hsome, htimers, ?_⟩
    intro hmem
    rcases List.mem_append.mp hmem with hq | hq
    · exact hqueue hq
    · exact Msg.noConfusion (List.mem_singleton.mp hq)
  | send_input pos data hp =>
    left
    refine ⟨hsome, htimers, ?_⟩
    intro hmem
    rcases List.mem_append.mp hmem with hq | hq
    · exact hqueue hq
    · exact Msg.noConfusion (List.mem_singleton.mp hq)
  | send_feedExit pos hp =>
    left
    refine ⟨hsome, htimers, ?_⟩
    intro hmem
    rcases List.mem_append.mp hmem with hq | hq
    · exact hqueue hq
    · exact Msg.noConfusion (List.mem_singleton.mp hq)
  | fire t m hm =>
    left
    refine ⟨hsome, ?_, ?_⟩
    · intro p hp
      exact htimers p (List.mem_of_mem_filter hp)
    · intro hmem
      rcases List.mem_append.mp hmem with hq | hq
      · exact hqueue hq
      · exact htimers (t, m) (mem_of_lookup_timers hm)
          (by rw [← List.mem_singleton.mp hq])
  | deliver m rest s'2 hq hh =>
    have hm : m ≠ Msg.output := by
      intro hc
      exact hqueue (hq ▸ hc ▸ List.mem_cons_self m rest)
    have hrest : Msg.output ∉ rest := by
      intro hc
      exact hqueue (hq ▸ List.mem_cons_of_mem m hc)
    rcases handle_noout { s with queue := rest } m s'
        ⟨hsome, htimers, hrest⟩ hm hh with hleft | ⟨r1, r2⟩
    · exact .inl hleft
    · exact .inr ⟨r1, r2⟩

/-! ### Concrete configurations and traces -/

/-- One feed without TTL; distinct clear (`' '`) and expiry (`'_'`)
characters. -/
def confA : Conf :=
  { feeds := [{ name := "f", cmd := "c", ttl := none, shell := none }],
    dst := some .stdOut, sep := "", pad_left := "[", pad_right := "]",
    expiry_character := '_', output_interval := 0 }

/-- One feed with a TTL. -/
def confB : Conf :=
  { feeds := [{ name := "f", cmd := "c", ttl := some 1, shell := none }],
    dst := some .stdOut, sep := "", pad_left := "", pad_right := "",
    expiry_character := '_', output_interval := 0 }

/-- The reachable state refuting claim C3. -/
def c3Final : Sys :=
  (runActs (Sys.init confB) [.sendOn none, .deliver, .sendFeedExit 0, .deliver]).getD
    (Sys.init confB)

/-- Claim C3 (counterexample): start the server, turn it on (the TTL feed
arms an expiry timer at once), then the feed exits unsolicited and its
`FeedExit` is handled in `On`.  `off_feed` takes the feed slot but leaves
`expiration_timers[0]` armed, so the reachable state has
`feeds[0] = None` with `expiration_timers[0] = Some _`, refuting the
invariant. -/
theorem c3_counterexample :
    Reach confB c3Final ∧
    c3Final.feeds.getD 0 (some ()) = none ∧
    (c3Final.expiration_timers.getD 0 none).isSome = true :=
  ⟨reach_of_runActs (Sys.init confB) c3Final
      [.sendOn none, .deliver, .sendFeedExit 0, .deliver] (by decide),
   by decide, by decide⟩

/-- The penultimate state of the claim-C4 interleaving. -/
def c4Pre : Sys :=
  (runActs (Sys.init confB)
    [.sendOn none, .deliver, .sendInput 0 "x", .fire 1, .deliver, .deliver]).getD
    (Sys.init confB)

/-- Claim C4: a real interleaving reaches the `unreachable!()` branch of
the `Expiration` handler.  The feed's expiry timer fires while a fresh
`Input` is already queued (the supervisor lags past the TTL deadline);
handling the `Input` re-arms a new timer, handling the stale
`Expiration` takes the new handle and awaits it (which lets the new timer
send its own `Expiration`), and handling that second `Expiration` finds
the stored handle `None` — the asserted-unreachable panic. -/
theorem c4_unreachable_hit :
    runActs (Sys.init confB)
        [.sendOn none, .deliver, .sendInput 0 "x", .fire 1, .deliver, .deliver]
      = some c4Pre ∧
    Reach confB c4Pre ∧
    c4Pre.state = .on ∧
    c4Pre.queue = [.expiration 0] ∧
    Sys.handleMsg { c4Pre with queue := [] } (.expiration 0)
      = .error .takeExpirationNone := by
  refine ⟨by decide,
    reach_of_runActs (Sys.init confB) c4Pre
      [.sendOn none, .deliver, .sendInput 0 "x", .fire 1, .deliver, .deliver] (by decide),
    by decide, by decide, by decide⟩

/-- The reachable `On` state with slot 0 set to `"abc"` and a pending
`FeedExit 0` at the head of the queue. -/
def c2Pre : Sys :=
  (runActs (Sys.init confA)
    [.sendOn none, .deliver, .sendInput 0 "abc", .deliver, .sendFeedExit 0]).getD
    (Sys.init confA)

/-- Claim C2 (counterexample): handling `FeedExit 0` in `On` overwrites
bar slot 0 with a run of the **clear** character (spaces), not the expiry
character: the slot becomes `"   "` while an expiry run would be
`"___"`. -/
theorem c2_counterexample :
    Reach confA c2Pre ∧
    c2Pre.state = .on ∧
    c2Pre.queue = [.feedExit 0] ∧
    (∃ s', Sys.handleMsg { c2Pre with queue := [] } (.feedExit 0) = .ok s' ∧
      s'.bar.slots.getD 0 "" = "   ") ∧
    String.mk (List.replicate 3 c2Pre.bar.expire_char) = "___" ∧
    ("   " : String) ≠ "___" := by
  refine ⟨reach_of_runActs (Sys.init confA) c2Pre
      [.sendOn none, .deliver, .sendInput 0 "abc", .deliver, .sendFeedExit 0] (by decide),
    by decide, by decide,
    ⟨(Sys.off_feed { c2Pre with queue := [] } 0).toOption.getD c2Pre, by decide, by decide⟩,
    by decide, by decide⟩

/-- The state reached by dropping an `Output` in `Off` right after start:
the stored output-timer handle is retained while its task has already
fired. -/
def c10Wedged : Sys :=
  (runActs (Sys.init confA) [.fire 0, .deliver]).getD (Sys.init confA)

/-- Claim C10 (counterexample): after the initial output timer fires and
its `Output` is dropped in `Off` (handle retained, so no output timer is
ever re-armed), turning the server on and having the feed exit
unsolicited still **publishes the bar during the On period** — `off_feed`
publishes directly, bypassing the output-timer path.  The last clause of
the claim ("the bar is never published during any intervening On
period") is therefore false. -/
theorem c10_counterexample :
    runActs (Sys.init confA) [.fire 0, .deliver] = some c10Wedged ∧
    c10Wedged.state = .off ∧
    c10Wedged.output_timer = some 0 ∧
    c10Wedged.timers = [] ∧
    c10Wedged.published = [] ∧
    (∃ s : Sys,
      runActs c10Wedged [.sendOn none, .deliver, .sendFeedExit 0, .deliver] = some s ∧
      s.state = .on ∧
      s.output_timer = some 0 ∧
      s.published = ["[]"]) := by
  refine ⟨by decide, by decide, by decide, by decide, by decide,
    ⟨(runActs c10Wedged [.sendOn none, .deliver, .sendFeedExit 0, .deliver]).getD c10Wedged,
      by decide, by decide, by decide, by decide⟩⟩

/-! ### The general `FeedExit` effect (claim C2) -/

theorem Sys.abortFold_more (l : List (Option Nat)) (acc : Sys) :
    ((l.foldl (fun acc ot => match ot with
        | some t => Sys.abortTimer acc t
        | none => acc) acc).bar = acc.bar ∧
     (l.foldl (fun acc ot => match ot with
        | some t => Sys.abortTimer acc t
        | none => acc) acc).published = acc.published ∧
     (l.foldl (fun acc ot => match ot with
        | some t => Sys.abortTimer acc t
        | none => acc) acc).cleaned = acc.cleaned) := by
  induction l generalizing acc with
  | nil => exact ⟨rfl, rfl, rfl⟩
  | cons ot rest ih =>
    cases ot with
    | none => exact ih acc
    | some t =>
      obtain ⟨h1, h2, h3⟩ := ih (acc.abortTimer t)
      exact ⟨h1, h2, h3⟩

theorem Sys.off_transition_more (s : Sys) :
    (Sys.off_transition s).bar = s.bar ∧
    (Sys.off_transition s).published = s.published ++ [""] ∧
    (Sys.off_transition s).cleaned = s.cleaned ∧
    (Sys.off_transition s).feeds = s.feeds := by
  obtain ⟨d1, d2, d3⟩ := Sys.abortFold_more s.expiration_timers s
  have hd : (Sys.drainExp s).bar = s.bar ∧ (Sys.drainExp s).published = s.published ∧
      (Sys.drainExp s).cleaned = s.cleaned := by
    unfold Sys.drainExp
    exact ⟨d1, d2, d3⟩
  have ht : (Sys.takeOutputTimer (Sys.drainExp s)).bar = s.bar ∧
      (Sys.takeOutputTimer (Sys.drainExp s)).published = s.published ∧
      (Sys.takeOutputTimer (Sys.drainExp s)).cleaned = s.cleaned := by
    unfold Sys.takeOutputTimer
    split
    · exact ⟨hd.1, hd.2.1, hd.2.2⟩
    · exact ⟨hd.1, hd.2.1, hd.2.2⟩
  obtain ⟨f1, f2, f3, f4, f5, f6, f7, f8⟩ := Sys.off_transition_fields s
  unfold Sys.off_transition
  refine ⟨?_, ?_, ?_, ?_⟩
  · simpa [Sys.output_blank] using ht.1
  · simpa [Sys.output_blank] using ht.2.1
  · simpa [Sys.output_blank] using ht.2.2
  · exact f7

theorem Bar.clear_shown (b : Bar) (i : Nat) : (b.clear i).shown = false := rfl

/-- Claim C2 (amended): handling `FeedExit pos` in `On` or `Offing` with
feed `pos` live and the bar slot in range takes the feed slot, runs
cleanup, overwrites bar slot `pos` with a run of the **clear** character
whose length is the slot's UTF-8 byte count, and publishes the cleared
bar once (with one additional blank publish when this was the last live
feed in `Offing`). -/
theorem c2_feed_exit_clears (s : Sys) (pos : Nat)
    (hst : s.state = .on ∨ s.state = .offing)
    (hfeed : s.feeds.get? pos = some (some ()))
    (hbar : pos < s.bar.slots.length) :
    ∃ s', Sys.handleMsg s (.feedExit pos) = .ok s' ∧
      s'.feeds = s.feeds.set pos none ∧
      s'.cleaned = s.cleaned.set pos true ∧
      s'.bar.slots.get? pos = some (String.mk (List.replicate
          ((s.bar.slots.getD pos "").utf8ByteSize) s.bar.clear_char)) ∧
      s'.published = s.published ++ [(s.bar.clear pos).show'] ++
        (if s.state = .offing ∧ ((s.feeds.set pos none).filter Option.isSome).length = 0
         then [""] else []) := by
  have hclear : barClearP s.bar pos = .ok (s.bar.clear pos) := by
    unfold barClearP
    rw [if_pos hbar]
  have hof : Sys.off_feed s pos =
      Sys.off_feed_after (Sys.output
        { s with feeds := s.feeds.set pos none, cleaned := s.cleaned.set pos true,
                 bar := s.bar.clear pos }) := by
    unfold Sys.off_feed
    rw [hfeed, hclear]
  have hout : Sys.output
      { s with feeds := s.feeds.set pos none, cleaned := s.cleaned.set pos true,
               bar := s.bar.clear pos } =
      { s with feeds := s.feeds.set pos none, cleaned := s.cleaned.set pos true,
               bar := { (s.bar.clear pos) with shown := true },
               published := s.published ++ [(s.bar.clear pos).show'] } := by
    unfold Sys.output
    rw [if_neg (by rw [Bar.clear_shown]; exact Bool.false_ne_true)]
  have hslot : (s.bar.clear pos).slots.get? pos = some (String.mk (List.replicate
      ((s.bar.slots.getD pos "").utf8ByteSize) s.bar.clear_char)) := by
    unfold Bar.clear Bar.overwrite Bar.set
    exact List.get?_set_eq_of_lt _ hbar
  simp only [Sys.handleMsg]
  rw [hof, hout]
  cases hst with
  | inl hon =>
    have hafter : Sys.off_feed_after
        { s with feeds := s.feeds.set pos none, cleaned := s.cleaned.set pos true,
                 bar := { (s.bar.clear pos) with shown := true },
                 published := s.published ++ [(s.bar.clear pos).show'] } =
        .ok { s with feeds := s.feeds.set pos none, cleaned := s.cleaned.set pos true,
                     bar := { (s.bar.clear pos) with shown := true },
                     published := s.published ++ [(s.bar.clear pos).show'] } := by
      unfold Sys.off_feed_after
      rw [hon]
    refine ⟨_, hafter, rfl, rfl, hslot, ?_⟩
    show s.published ++ [(s.bar.clear pos).show'] = _
    rw [if_neg (by rw [hon]; rintro ⟨hc, -⟩; exact SState.noConfusion hc)]
    simp
  | inr hoffing =>
    by_cases hlive : ((s.feeds.set pos none).filter Option.isSome).length = 0
    · obtain ⟨m1, m2, m3, m4⟩ := Sys.off_transition_more
        { s with feeds := s.feeds.set pos none, cleaned := s.cleaned.set pos true,
                 bar := { (s.bar.clear pos) with shown := true },
                 published := s.published ++ [(s.bar.clear pos).show'] }
      have hafter : Sys.off_feed_after
          { s with feeds := s.feeds.set pos none, cleaned := s.cleaned.set pos true,
                   bar := { (s.bar.clear pos) with shown := true },
                   published := s.published ++ [(s.bar.clear pos).show'] } =
          .ok (Sys.off_transition
            { s with feeds := s.feeds.set pos none, cleaned := s.cleaned.set pos true,
                     bar := { (s.bar.clear pos) with shown := true },
                     published := s.published ++ [(s.bar.clear pos).show'] }) := by
        unfold Sys.off_feed_after
        rw [hoffing, if_pos hlive]
      refine ⟨_, hafter, m4, m3, ?_, ?_⟩
      · rw [m1]
        exact hslot
      · rw [m2, if_pos ⟨hoffing, hlive⟩]
    · have hafter : Sys.off_feed_after
          { s with feeds := s.feeds.set pos none, cleaned := s.cleaned.set pos true,
                   bar := { (s.bar.clear pos) with shown := true },
                   published := s.published ++ [(s.bar.clear pos).show'] } =
          .ok { s with feeds := s.feeds.set pos none, cleaned := s.cleaned.set pos true,
                       bar := { (s.bar.clear pos) with shown := true },
                       published := s.published ++ [(s.bar.clear pos).show'] } := by
        unfold Sys.off_feed_after
        rw [hoffing, if_neg hlive]
      refine ⟨_, hafter, rfl, rfl, hslot, ?_⟩
      show s.published ++ [(s.bar.clear pos).show'] = _
      rw [if_neg (by rintro ⟨-, hc⟩; exact hlive hc)]
      simp

/-- Witness for `c2_feed_exit_clears` at the reachable state `c2Pre` with
its queue drained. -/
theorem c2_witness :
    ∃ s', Sys.handleMsg { c2Pre with queue := [] } (.feedExit 0) = .ok s' ∧
      s'.feeds = ({ c2Pre with queue := [] } : Sys).feeds.set 0 none ∧
      s'.cleaned = ({ c2Pre with queue := [] } : Sys).cleaned.set 0 true ∧
      s'.bar.slots.get? 0 = some (String.mk (List.replicate
          ((({ c2Pre with queue := [] } : Sys).bar.slots.getD 0 "").utf8ByteSize)
          ({ c2Pre with queue := [] } : Sys).bar.clear_char)) ∧
      s'.published = ({ c2Pre with queue := [] } : Sys).published ++
        [(({ c2Pre with queue := [] } : Sys).bar.clear 0).show'] ++
        (if ({ c2Pre with queue := [] } : Sys).state = .offing ∧
            ((({ c2Pre with queue := [] } : Sys).feeds.set 0 none).filter
              Option.isSome).length = 0
         then [""] else []) :=
  c2_feed_exit_clears { c2Pre with queue := [] } 0 (Or.inl (by decide))
    (by decide) (by decide)

/-! ### Main supervisor claim theorems -/

/-- The actions leading to the stuck `Offing` state: the only feed exits
unsolicited while `On` (and is fully reaped), then `Off` is accepted. -/
def c1Acts : List Act :=
  [.sendOn none, .deliver, .sendFeedExit 0, .deliver, .sendOff, .deliver]

/-- The stuck state: `Offing`, every feed reaped, reply unfired. -/
def c1Final : Sys := (runActs (Sys.init confA) c1Acts).getD (Sys.init confA)

/-- Claim C1: the code reaches a state where the `Off` command was
accepted in `On`, every feed has been reaped and its router joined
(`cleaned = [true]`, `feeds = [none]`), yet the deferred reply has not
fired — and in every state reachable from there it never fires and the
supervisor never reaches `Off`: the `Offing → Off` transition only runs
inside a `FeedExit` handler, and no further `FeedExit` can arrive (its
handler would panic on the already-taken slot).  The claimed equivalence
"the reply fires iff every feed has been reaped and its router has
exited" is false on this execution. -/
theorem c1_off_reply_never_fires :
    runActs (Sys.init confA) c1Acts = some c1Final ∧
    Reach confA c1Final ∧
    c1Final.state = .offing ∧
    c1Final.feeds = [none] ∧
    c1Final.cleaned = [true] ∧
    c1Final.notified = false ∧
    (∀ s' : Sys, Relation.ReflTransGen Step c1Final s' →
      s'.notified = false ∧ s'.state = .offing) := by
  refine ⟨by decide, reach_of_runActs (Sys.init confA) c1Final c1Acts (by decide),
    by decide, by decide, by decide, by decide, ?_⟩
  intro s' hs
  have hQ : s'.state = .offing ∧ s'.notified = false ∧ s'.feeds = [none] := by
    induction hs with
    | refl => exact ⟨by decide, by decide, by decide⟩
    | tail hsteps hstep ih =>
      exact step_stuck_offing _ _ ih.1 ih.2.1 ih.2.2 hstep
  exact ⟨hQ.2.1, hQ.1⟩

/-- Witness for the universally quantified part of
`c1_off_reply_never_fires`, at the empty continuation. -/
theorem c1_witness : c1Final.notified = false ∧ c1Final.state = .offing :=
  c1_off_reply_never_fires.2.2.2.2.2.2 c1Final Relation.ReflTransGen.refl

/-- The feed loop of a (possibly failing) `On` transition only ever
pushes live feed slots, and keeps the feed and expiry-timer vectors the
same length. -/
theorem Sys.onLoop_feeds :
    ∀ (l : List Nat) (failAt : Option Nat) (acc s1 : Sys) (done : Bool),
      (∀ x ∈ acc.feeds, x.isSome = true) →
      acc.feeds.length = acc.expiration_timers.length →
      Sys.onLoop acc l failAt = .ok (s1, done) →
      (∀ x ∈ s1.feeds, x.isSome = true) ∧
      s1.feeds.length = s1.expiration_timers.length
  | [], failAt, acc, s1, done, hall, hlen, h => by
    cases h
    exact ⟨hall, hlen⟩
  | pos :: rest, failAt, acc, s1, done, hall, hlen, h => by
    unfold Sys.onLoop at h
    split at h
    · cases h
      exact ⟨hall, hlen⟩
    · cases hstep : Sys.onFeedStep acc pos with
      | error e => rw [hstep] at h; exact absurd h (fun hh => Except.noConfusion hh)
      | ok acc1 =>
        rw [hstep] at h
        have hstep2 := hstep
        unfold Sys.onFeedStep at hstep2
        cases hres : Sys.reschedule_expiration
            { acc with feeds := acc.feeds ++ [some ()],
                       expiration_timers := acc.expiration_timers ++ [none],
                       exitPending := acc.exitPending ++ [true],
                       cleaned := acc.cleaned ++ [false] } pos with
        | error e =>
          rw [hres] at hstep2
          exact absurd hstep2 (fun hh => Except.noConfusion hh)
        | ok accr =>
          rw [hres] at hstep2
          cases hstep2
          obtain ⟨r1, r2, r3, r4, r5, r6, r7, r8⟩ := Sys.reschedule_facts _ pos accr hres
          obtain ⟨e1, e2, e3, e4, e5, e6, e7, e8⟩ := Sys.ensure_fields accr
          have hall1 : ∀ x ∈ (Sys.ensure_output_scheduled accr).feeds, x.isSome = true := by
            rw [e6, r3]
            intro x hx
            rcases List.mem_append.mp hx with hm | hm
            · exact hall x hm
            · rw [List.mem_singleton.mp hm]; rfl
          have hlen1 : (Sys.ensure_output_scheduled accr).feeds.length
              = (Sys.ensure_output_scheduled accr).expiration_timers.length := by
            rw [e6, e2, r3, r8]
            simp [hlen]
          exact Sys.onLoop_feeds rest failAt _ s1 done hall1 hlen1 h

/-- Claim C3 (amended): the invariant survives at the two boundaries the
counterexample leaves intact.  (a) A **successful** `On` transition
produces only live feed slots and equal-length parallel vectors, so in
its result `feeds[i] = None` (only possible past the end of the vectors)
implies no armed expiry timer at `i`.  (b) The `Offing → Off` shutdown
completion drains the whole expiry-timer vector (and takes the output
timer).  In between the invariant can be violated — after a feed exit
the slot keeps its armed timer (see the counterexample), an `Input` for
a dead slot re-arms one, and a failed `On` (`Feed::start` error) leaves
state `Off` with partially populated, possibly armed vectors. -/
theorem c3_invariant_boundaries :
    (∀ (s : Sys) (failAt : Option Nat) (s' : Sys), s.state = .off →
       Sys.on_cmd s failAt = .ok s' → s'.state = .on →
       ∀ i, s'.feeds.getD i none = none →
         s'.expiration_timers.getD i none = none) ∧
    (∀ (s : Sys) (pos : Nat) (s' : Sys),
       Sys.handleMsg s (.feedExit pos) = .ok s' →
       s.state = .offing → s'.state = .off →
       s'.expiration_timers = [] ∧ s'.output_timer = none) := by
  constructor
  · intro s failAt s' hoff h hon i hnone
    unfold Sys.on_cmd at h
    cases hl : Sys.onLoop
        { s with bar := Bar.fromConf s.conf, feeds := [], expiration_timers := [],
                 exitPending := [], cleaned := [] }
        (List.range s.conf.feeds.length) failAt with
    | error e => rw [hl] at h; exact absurd h (fun hh => Except.noConfusion hh)
    | ok pr =>
      obtain ⟨s1, done⟩ := pr
      rw [hl] at h
      obtain ⟨hall, hlen⟩ := Sys.onLoop_feeds _ failAt _ s1 done
        (fun x hx => absurd hx (List.not_mem_nil x)) rfl hl
      cases done with
      | true =>
        cases h
        by_cases hi : i < s1.feeds.length
        · exfalso
          have hgd : s1.feeds.getD i none = s1.feeds[i] :=
            List.getD_eq_getElem s1.feeds none hi
          have hsome := hall s1.feeds[i] (List.getElem_mem hi)
          rw [hgd] at hnone
          rw [hnone] at hsome
          simp at hsome
        · have hile : s1.expiration_timers.length ≤ i := by omega
          exact List.getD_eq_default s1.expiration_timers none hile
      | false =>
        cases h
        obtain ⟨g1, -, -, -, -⟩ := Sys.onLoop_facts _ failAt _ s' false hl
        exfalso
        have hson : s.state = .on := g1.symm.trans hon
        rw [hoff] at hson
        exact SState.noConfusion hson
  · intro s pos s' h hoffing hoff'
    rcases Sys.off_feed_cases s pos s' h with
      ⟨c1, -, -, -, -, -, -, -⟩ | ⟨-, -, c3, c4, -, -, -, -⟩
    · exfalso
      rw [c1, hoffing] at hoff'
      exact SState.noConfusion hoff'
    · exact ⟨c3, c4⟩

/-- The result of the successful `On` transition from the fresh server
under `confB`. -/
def c3OnOk : Sys := (Sys.on_cmd (Sys.init confB) none).toOption.getD (Sys.init confB)

/-- A reachable `Offing` state (orderly shutdown of the single feed)
about to handle the last `FeedExit`. -/
def c3OffPre : Sys :=
  { ((runActs (Sys.init confA)
      [.sendOn none, .deliver, .sendOff, .deliver, .sendFeedExit 0]).getD
      (Sys.init confA)) with queue := [] }

/-- The `Off` state produced by handling that last `FeedExit`. -/
def c3OffFinal : Sys := (Sys.handleMsg c3OffPre (.feedExit 0)).toOption.getD c3OffPre

/-- Witness for `c3_invariant_boundaries`: both parts applied at concrete
reachable inputs. -/
theorem c3_boundaries_witness :
    c3OnOk.expiration_timers.getD 3 none = none ∧
    (c3OffFinal.expiration_timers = [] ∧ c3OffFinal.output_timer = none) :=
  ⟨c3_invariant_boundaries.1 (Sys.init confB) none c3OnOk (by decide) (by decide)
      (by decide) 3 (by decide),
   c3_invariant_boundaries.2 c3OffPre 0 c3OffFinal (by decide) (by decide) (by decide)⟩

/-- Claim C10 (amended): an `Output` handled in `Off` is dropped with the
stored handle untouched, and from any wedged configuration (handle
stored, no output-timer task pending, no `Output` queued) every step
either preserves the wedge — `ensure_output_scheduled` arms nothing
while a handle is stored, so no new output timer, no `Output` delivery
and no output-timer publish can occur — or is the `Offing → Off`
transition that takes the handle.  Publishes can still happen in `On`:
`off_feed` publishes directly (see the counterexample). -/
theorem c10_output_timer_wedge (s s' : Sys) (hP : NoOut s) (hstep : Step s s') :
    (s.state = .off → Sys.handleMsg s Msg.output = .ok s) ∧
    (NoOut s' ∨ (s.state = .offing ∧ s'.state = .off)) := by
  constructor
  · intro hoff
    unfold Sys.handleMsg
    rw [hoff]
  · exact step_noout s s' hP hstep

/-- Witness for `c10_output_timer_wedge` at the concrete wedged state and
a client `Off` send. -/
theorem c10_witness :
    (c10Wedged.state = .off → Sys.handleMsg c10Wedged Msg.output = .ok c10Wedged) ∧
    (NoOut (c10Wedged.enqueue .off) ∨
      (c10Wedged.state = .offing ∧ (c10Wedged.enqueue .off).state = .off)) :=
  c10_output_timer_wedge c10Wedged (c10Wedged.enqueue .off)
    ⟨by decide, by decide, by decide⟩ (Step.send_off c10Wedged)

end Barista
